import Mathlib

/-!
# Minshall-French symlink parsing (`mfsymlink.go`)

A shallow embedding of the Go package `mfsymlink`: the size pre-check
`IsPossibleSymlink` and the parser `Parse`, together with the standard
library routines `Parse` calls (`bytes.SplitN`, `strconv.Atoi`,
`hex.Decode`, `md5.Sum`).

Conventions of the embedding:

* a Go `[]byte` and a Go `string` are both `List Byte` (a Go string is a
  sequence of raw bytes; `string(b)` and `[]byte(s)` are the identity);
  a `nil` slice and an empty slice are both `[]`;
* a Go `int` is an `Int` in the range `[-2^63, 2^63)` (a 64-bit platform);
* `uint32`/`uint64` arithmetic is `Nat` arithmetic with explicit `% 2^w`;
* a run-time panic is the explicit outcome `Result.panic`.
-/

namespace Mfsymlink

/-- A byte. -/
abbrev Byte := UInt8

deriving instance DecidableEq for Except

/-- The bytes of an ASCII string literal: Go's `[]byte("...")`. -/
def ascii (s : String) : List Byte := s.toList.map (fun c => c.toNat.toUInt8)

/-! ## Constants and error values of the package -/

/-- Size is the size of mfsymlink files in bytes. -/
def Size : Int := 1067

/-- Marker is the marker used at the front of mfsymlink files. -/
def Marker : List Byte := ascii "XSym"

/-- The empty Go string. -/
def emptyString : List Byte := []

/-- The two error values of the package. -/
inductive Error where
  | ErrNotMFSymlink
  | ErrMD5Mismatch
  deriving DecidableEq, Repr

/-- The slice `[]byte(Marker)`. -/
def mfsymlinkMarker : List Byte := Marker

/-- The separator `[]byte("\n")` holds the single byte `0x0a`; the split
below works with that one byte (for a one-byte separator `bytes.Index` is
`bytes.IndexByte`). -/
def newline : Byte := 0x0a

/-- What a call of `Parse` does: it returns a pair `(target, err)`, where
`err = none` is Go's `nil` error, or it panics at run time. -/
inductive Result where
  | ret (target : List Byte) (err : Option Error)
  | panic
  deriving DecidableEq, Repr

/-! ## `bytes.SplitN` -/

/-- Go's `bytes.IndexByte`: the index of the first `c` in `b`, or `-1`. -/
def IndexByte : List Byte → Byte → Int
  | [], _ => -1
  | x :: xs, c =>
    if x = c then 0
    else
      let r := IndexByte xs c
      if r < 0 then -1 else r + 1

/-- Go's `bytes.Count` for a one-byte separator. -/
def Count (s : List Byte) (sep : Byte) : Nat := s.count sep

/-- The loop of `genSplit`: at most `k` more cuts at the separator, then
the rest of the input as the last piece. -/
def genSplitLoop (sep : Byte) : Nat → List Byte → List (List Byte)
  | 0, s => [s]
  | k + 1, s =>
    let m := IndexByte s sep
    if m < 0 then [s]
    else s.take m.toNat :: genSplitLoop sep k (s.drop (m.toNat + 1))

/-- Go's `bytes.SplitN(s, sep, n)` for a one-byte separator: `n = 0` gives
no piece, `n < 0` all pieces, and `n` is clamped to `len(s) + 1`. -/
def SplitN (s : List Byte) (sep : Byte) (n : Int) : List (List Byte) :=
  if n = 0 then []
  else
    let n1 : Int := if n < 0 then (Count s sep : Int) + 1 else n
    let n2 : Int := if n1 > (s.length : Int) + 1 then (s.length : Int) + 1 else n1
    genSplitLoop sep (n2.toNat - 1) s

/-! ## `strconv.Atoi` -/

/-- The size of a Go `int` in bits (`strconv.IntSize`). -/
def intSize : Nat := 64

/-- The two causes inside a `*strconv.NumError`. -/
inductive NumError where
  | ErrSyntax
  | ErrRange
  deriving DecidableEq, Repr

/-- The digit loop of `strconv.ParseUint(s, 10, 0)`: `n` is the `uint64`
accumulator. A byte that is not a decimal digit is a syntax error; the
product or the sum leaving the `uint64` range is a range error. -/
def parseUintLoop : List Byte → Nat → Except NumError Nat
  | [], n => .ok n
  | c :: cs, n =>
    if 0x30 ≤ c ∧ c ≤ 0x39 then
      let d : Nat := c.toNat - 0x30
      if n ≥ (2 ^ 64 - 1) / 10 + 1 then .error .ErrRange
      else
        let n10 := (n * 10) % 2 ^ 64
        let n1 := (n10 + d) % 2 ^ 64
        if n1 < n10 ∨ n1 > 2 ^ intSize - 1 then .error .ErrRange
        else parseUintLoop cs n1
    else .error .ErrSyntax

/-- Go's `strconv.ParseUint(s, 10, 0)`. -/
def ParseUint (s : List Byte) : Except NumError Nat :=
  if s = [] then .error .ErrSyntax else parseUintLoop s 0

/-- Go's `strconv.ParseInt(s, 10, 0)`: an optional sign, then the unsigned
digits, then the range check against `1 << (intSize - 1)`. (After a range
error of `ParseUint` Go goes on with `un = 1<<64 - 1`, which the range check
rejects for either sign: the result is the range error in both readings.) -/
def ParseInt (s : List Byte) : Except NumError Int :=
  match s with
  | [] => .error .ErrSyntax
  | c :: cs =>
    let neg := c = 0x2d
    let body := if c = 0x2b ∨ c = 0x2d then cs else s
    match ParseUint body with
    | .error e => .error e
    | .ok un =>
      let cutoff : Nat := 2 ^ (intSize - 1)
      if ¬ neg ∧ un ≥ cutoff then .error .ErrRange
      else if neg ∧ un > cutoff then .error .ErrRange
      else if neg then .ok (-(un : Int)) else .ok (un : Int)

/-- Go's `strconv.Atoi(s)`: by its documentation `ParseInt(s, 10, 0)`
converted to `int` (the short-input fast path of recent releases computes
the same result). -/
def Atoi (s : List Byte) : Except NumError Int := ParseInt s

/-! ## `encoding/hex` -/

/-- The two errors of `hex.Decode`. -/
inductive HexError where
  | InvalidByteError (b : Byte)
  | ErrLength
  deriving DecidableEq, Repr

/-- The value of one hexadecimal character (`0-9`, `a-f`, `A-F`), or
`none` for any other byte. -/
def fromHexChar (c : Byte) : Option Byte :=
  if 0x30 ≤ c ∧ c ≤ 0x39 then some (c - 0x30)
  else if 0x61 ≤ c ∧ c ≤ 0x66 then some (c - 0x61 + 10)
  else if 0x41 ≤ c ∧ c ≤ 0x46 then some (c - 0x41 + 10)
  else none

/-- Go's `hex.DecodedLen`. -/
def DecodedLen (x : Nat) : Nat := x / 2

/-- Go's `hex.Decode(dst, src)` with `dst` of `DecodedLen(len(src))` bytes:
on success the bytes written to `dst`, two characters per byte; an invalid
character or an odd length is an error. -/
def Decode : List Byte → Except HexError (List Byte)
  | [] => .ok []
  | [p] =>
    match fromHexChar p with
    | none => .error (.InvalidByteError p)
    | some _ => .error .ErrLength
  | p :: q :: rest =>
    match fromHexChar p, fromHexChar q with
    | none, _ => .error (.InvalidByteError p)
    | some _, none => .error (.InvalidByteError q)
    | some a, some b =>
      match Decode rest with
      | .error e => .error e
      | .ok ds => .ok (((a <<< 4) ||| b) :: ds)

/-! ## `crypto/md5` -/

/-- Rotate a 32-bit word left by `s` bits. -/
def rotl32 (x s : Nat) : Nat := ((x <<< s) ||| (x >>> (32 - s))) % 2 ^ 32

/-- The per-round shift amounts of MD5. -/
def md5Shifts : List Nat :=
  [7, 12, 17, 22, 7, 12, 17, 22, 7, 12, 17, 22, 7, 12, 17, 22,
   5, 9, 14, 20, 5, 9, 14, 20, 5, 9, 14, 20, 5, 9, 14, 20,
   4, 11, 16, 23, 4, 11, 16, 23, 4, 11, 16, 23, 4, 11, 16, 23,
   6, 10, 15, 21, 6, 10, 15, 21, 6, 10, 15, 21, 6, 10, 15, 21]

/-- The sine table of MD5: `floor(2^32 * |sin(i + 1)|)`. -/
def md5Table : List Nat :=
  [0xd76aa478, 0xe8c7b756, 0x242070db, 0xc1bdceee,
   0xf57c0faf, 0x4787c62a, 0xa8304613, 0xfd469501,
   0x698098d8, 0x8b44f7af, 0xffff5bb1, 0x895cd7be,
   0x6b901122, 0xfd987193, 0xa679438e, 0x49b40821,
   0xf61e2562, 0xc040b340, 0x265e5a51, 0xe9b6c7aa,
   0xd62f105d, 0x02441453, 0xd8a1e681, 0xe7d3fbc8,
   0x21e1cde6, 0xc33707d6, 0xf4d50d87, 0x455a14ed,
   0xa9e3e905, 0xfcefa3f8, 0x676f02d9, 0x8d2a4c8a,
   0xfffa3942, 0x8771f681, 0x6d9d6122, 0xfde5380c,
   0xa4beea44, 0x4bdecfa9, 0xf6bb4b60, 0xbebfbc70,
   0x289b7ec6, 0xeaa127fa, 0xd4ef3085, 0x04881d05,
   0xd9d4d039, 0xe6db99e5, 0x1fa27cf8, 0xc4ac5665,
   0xf4292244, 0x432aff97, 0xab9423a7, 0xfc93a039,
   0x655b59c3, 0x8f0ccc92, 0xffeff47d, 0x85845dd1,
   0x6fa87e4f, 0xfe2ce6e0, 0xa3014314, 0x4e0811a1,
   0xf7537e82, 0xbd3af235, 0x2ad7d2bb, 0xeb86d391]

/-- The chaining state of MD5: four 32-bit words. -/
structure MD5State where
  a : Nat
  b : Nat
  c : Nat
  d : Nat
  deriving DecidableEq, Repr

/-- The initial chaining state. -/
def md5Init : MD5State := ⟨0x67452301, 0xefcdab89, 0x98badcfe, 0x10325476⟩

/-- A little-endian 32-bit word from four bytes. -/
def leWord (bs : List Byte) : Nat :=
  (bs.getD 0 0).toNat + (bs.getD 1 0).toNat * 2 ^ 8 + (bs.getD 2 0).toNat * 2 ^ 16 +
    (bs.getD 3 0).toNat * 2 ^ 24

/-- The sixteen message words of a 64-byte block. -/
def blockWords (block : List Byte) : List Nat :=
  (List.range 16).map (fun i => leWord ((block.drop (4 * i)).take 4))

/-- One of the 64 steps of the MD5 compression function. -/
def md5Step (m : List Nat) (st : MD5State) (i : Nat) : MD5State :=
  let nb := st.b ^^^ 0xffffffff
  let nd := st.d ^^^ 0xffffffff
  let f :=
    if i < 16 then (st.b &&& st.c) ||| (nb &&& st.d)
    else if i < 32 then (st.d &&& st.b) ||| (nd &&& st.c)
    else if i < 48 then st.b ^^^ st.c ^^^ st.d
    else st.c ^^^ (st.b ||| nd)
  let g :=
    if i < 16 then i
    else if i < 32 then (5 * i + 1) % 16
    else if i < 48 then (3 * i + 5) % 16
    else (7 * i) % 16
  let x := (f + st.a + md5Table.getD i 0 + m.getD g 0) % 2 ^ 32
  ⟨st.d, (st.b + rotl32 x (md5Shifts.getD i 0)) % 2 ^ 32, st.b, st.c⟩

/-- The compression function on one 64-byte block. -/
def md5Block (st : MD5State) (block : List Byte) : MD5State :=
  let r := (List.range 64).foldl (md5Step (blockWords block)) st
  ⟨(st.a + r.a) % 2 ^ 32, (st.b + r.b) % 2 ^ 32, (st.c + r.c) % 2 ^ 32, (st.d + r.d) % 2 ^ 32⟩

/-- The compression function over `k` consecutive 64-byte blocks. -/
def md5Blocks : Nat → MD5State → List Byte → MD5State
  | 0, st, _ => st
  | k + 1, st, data => md5Blocks k (md5Block st (data.take 64)) (data.drop 64)

/-- The `k` low bytes of `x`, least significant first. -/
def leBytes : Nat → Nat → List Byte
  | 0, _ => []
  | k + 1, x => (x % 256).toUInt8 :: leBytes k (x / 256)

/-- The padded message: a `0x80` byte, zero bytes up to 56 modulo 64, and
the length in bits as a little-endian `uint64`. -/
def md5Pad (data : List Byte) : List Byte :=
  data ++ [0x80] ++ List.replicate ((55 + 64 - data.length % 64) % 64) 0 ++
    leBytes 8 ((data.length * 8) % 2 ^ 64)

/-- Go's `md5.Sum(data)`: the 16-byte MD5 digest of `data`. -/
def Sum (data : List Byte) : List Byte :=
  let p := md5Pad data
  let st := md5Blocks (p.length / 64) md5Init p
  leBytes 4 st.a ++ leBytes 4 st.b ++ leBytes 4 st.c ++ leBytes 4 st.d

/-! ## The package's two functions -/

/-- IsPossibleSymlink determines if the given `os.FileInfo` is a possible
mfsymlink; `size` is the value of `i.Size()`, an `int64`. -/
def IsPossibleSymlink (size : Int) : Bool := size == Size

/-- The slice expression `s[:hi]`: a run-time panic unless
`0 <= hi <= cap(s)` (here `cap(s)` is taken to be `len(s)`; `Parse` only
slices with `hi < len(s)`). -/
def sliceTo (s : List Byte) (hi : Int) : Option (List Byte) :=
  if 0 ≤ hi ∧ hi ≤ (s.length : Int) then some (s.take hi.toNat) else none

/-- Parse parses the given bytes and returns the mfsymlink target. -/
def Parse (b : List Byte) : Result :=
  match SplitN b newline 4 with
  | [line0, line1, line2, line3] =>
    -- Check file byte marker
    if line0 ≠ mfsymlinkMarker then .ret emptyString (some .ErrNotMFSymlink)
    else
      match Atoi line1 with
      | .error _ => .ret emptyString (some .ErrNotMFSymlink)
      | .ok l =>
        match Decode line2 with
        | .error _ => .ret emptyString (some .ErrNotMFSymlink)
        | .ok expectedMD5 =>
          let truncated : Option (List Byte) :=
            if (line3.length : Int) > l then sliceTo line3 l else some line3
          match truncated with
          | none => .panic
          | some targetBytes =>
            let actualMD5 := Sum targetBytes
            if expectedMD5 ≠ actualMD5 then .ret emptyString (some .ErrMD5Mismatch)
            else .ret targetBytes none
  | _ => .ret emptyString (some .ErrNotMFSymlink)

/-! ## The writer's side of the format (used to state round trips) -/

/-- The character of a decimal digit `d < 10`. -/
def digitChar (d : Nat) : Byte := (0x30 + d).toUInt8

/-- The decimal numeral of `n`, without sign or leading zeros
(`strconv.Itoa` on a non-negative value). -/
def decimal (n : Nat) : List Byte :=
  if n < 10 then [digitChar n] else decimal (n / 10) ++ [digitChar (n % 10)]
termination_by n
decreasing_by omega

/-- The character of a hexadecimal digit `v < 16`, lower case
(`hextable[v]`). -/
def hexChar (v : Byte) : Byte := if v < 10 then 0x30 + v else 0x61 + (v - 10)

/-- Lower-case hexadecimal encoding, two characters per byte
(`hex.EncodeToString`). -/
def hexEncode : List Byte → List Byte
  | [] => []
  | v :: vs => hexChar (v >>> 4) :: hexChar (v &&& 0x0f) :: hexEncode vs

/-- The three header lines of a file: the marker, a length field `n` and a
checksum field `h`, each followed by a newline. -/
def header (n h : List Byte) : List Byte :=
  Marker ++ [newline] ++ n ++ [newline] ++ h ++ [newline]

/-- The envelope of a target: marker, decimal length, hexadecimal MD5 and
the target, separated by newlines. -/
def envelope (target : List Byte) : List Byte :=
  header (decimal target.length) (hexEncode (Sum target)) ++ target

/-- The value of a string of decimal digits, most significant first. -/
def digitsValue (s : List Byte) : Nat := s.foldl (fun n c => n * 10 + (c.toNat - 0x30)) 0

/-- A decimal numeral: a non-empty string of the digits `0`..`9`. -/
def isNumeral (s : List Byte) : Prop := s ≠ [] ∧ ∀ c ∈ s, 0x30 ≤ c ∧ c ≤ 0x39

/-- A hexadecimal digit: one of `0-9`, `a-f`, `A-F`. -/
def isHexDigit (c : Byte) : Prop :=
  (0x30 ≤ c ∧ c ≤ 0x39) ∨ (0x61 ≤ c ∧ c ≤ 0x66) ∨ (0x41 ≤ c ∧ c ≤ 0x46)

/-- Valid hexadecimal data of even length. -/
def validHex (s : List Byte) : Prop := s.length % 2 = 0 ∧ ∀ c ∈ s, isHexDigit c

instance (c : Byte) : Decidable (isHexDigit c) := by unfold isHexDigit; infer_instance

instance (s : List Byte) : Decidable (isNumeral s) := by unfold isNumeral; infer_instance

instance (s : List Byte) : Decidable (validHex s) := by unfold validHex; infer_instance

/-! ## The test file -/

/-- The constant `validMFSymlink` of the test file: the header with the
length field `0026`, the 26-byte target, a newline and filler bytes. -/
def validMFSymlink : List Byte :=
  ascii "XSym\n0026\n500e5dbfa9b8c0041e01fe4f7967e287\n../XXXX-XX-XX/XXXXXXXXXXXX\n" ++
    List.replicate 249 0x09 ++ [0x20]

/-! ## Letter case of the checksum field -/

/-- The byte `c2` is `c1` up to the case of a hexadecimal letter: the same
byte, or one of `a`-`f` replaced by its upper-case letter, or one of `A`-`F`
replaced by its lower-case letter. -/
def hexCaseVariant (c1 c2 : Byte) : Prop :=
  c2 = c1 ∨ (0x61 ≤ c1 ∧ c1 ≤ 0x66 ∧ c2 = c1 - 0x20) ∨ (0x41 ≤ c1 ∧ c1 ≤ 0x46 ∧ c2 = c1 + 0x20)

instance (c1 c2 : Byte) : Decidable (hexCaseVariant c1 c2) := by
  unfold hexCaseVariant; infer_instance

/-- The upper-case form of a hexadecimal character. -/
def upperHexChar (c : Byte) : Byte := if 0x61 ≤ c ∧ c ≤ 0x66 then c - 0x20 else c

/-- Upper-case hexadecimal encoding (`hex.EncodeToString` followed by
`strings.ToUpper`). -/
def hexEncodeUpper (d : List Byte) : List Byte := (hexEncode d).map upperHexChar

/-! ## Auxiliary notions of the proofs -/

/-- The digit loop as a fold, without the range checks. -/
def digitsFold (n : Nat) (s : List Byte) : Nat := s.foldl (fun n c => n * 10 + (c.toNat - 0x30)) n

/-- What decoding needs of the two characters that encode a byte. -/
def hexPairOk (v : Byte) : Prop :=
  fromHexChar (hexChar (v >>> 4)) = some (v >>> 4) ∧
  fromHexChar (hexChar (v &&& 0x0f)) = some (v &&& 0x0f) ∧
  ((v >>> 4) <<< 4) ||| (v &&& 0x0f) = v ∧
  hexChar (v >>> 4) ≠ newline ∧ hexChar (v &&& 0x0f) ≠ newline

instance (v : Byte) : Decidable (hexPairOk v) := by unfold hexPairOk; infer_instance

/-- The condition under which `hex.Decode` succeeds, in terms of
`fromHexChar`. -/
def hexDecodable (s : List Byte) : Prop := s.length % 2 = 0 ∧ ∀ c ∈ s, (fromHexChar c).isSome

/-- What a change of letter case does to one character of the checksum
field, for the two directions. -/
def hexCaseOk (c : Byte) : Prop :=
  (0x61 ≤ c ∧ c ≤ 0x66 → fromHexChar (c - 0x20) = fromHexChar c ∧ fromHexChar c ≠ none ∧
    c - 0x20 ≠ newline) ∧
  (0x41 ≤ c ∧ c ≤ 0x46 → fromHexChar (c + 0x20) = fromHexChar c ∧ fromHexChar c ≠ none ∧
    c + 0x20 ≠ newline)

instance (c : Byte) : Decidable (hexCaseOk c) := by unfold hexCaseOk; infer_instance

/-! ## Evaluation on the package's own test table -/

theorem Sum_empty : Sum [] = [0xd4, 0x1d, 0x8c, 0xd9, 0x8f, 0x00, 0xb2, 0x04, 0xe9, 0x80, 0x09,
    0x98, 0xec, 0xf8, 0x42, 0x7e] := by decide!

theorem Sum_abc :
    Decode (ascii "900150983cd24fb0d6963f7d28e17f72") = .ok (Sum (ascii "abc")) := by decide!

theorem Sum_two_blocks :
    Decode (ascii "d174ab98d277d9f5a5611c2c9f419d9f") =
      .ok (Sum (ascii "ABCDEFGHIJKLMNOPQRSTUVWXYZabcdefghijklmnopqrstuvwxyz0123456789")) := by
  decide!

theorem Sum_eighty_digits :
    Decode (ascii "57edf4a22be3c955ac49da2e2107b67a") =
      .ok (Sum (ascii
        "12345678901234567890123456789012345678901234567890123456789012345678901234567890")) := by
  decide!

theorem Parse_test_no_trailing_padding :
    Parse (ascii "XSym\n10\nc59195470191ddf4c0f9e54e33046386\nXXXXXXXXXX")
      = .ret (ascii "XXXXXXXXXX") none := by decide!

/-! ## `bytes.SplitN` on one-byte separators -/

theorem IndexByte_of_not_mem (s : List Byte) (c : Byte) (h : c ∉ s) : IndexByte s c = -1 := by
  induction s with
  | nil => simp [IndexByte]
  | cons x xs ih =>
    simp only [List.mem_cons, not_or] at h
    have hx : ¬ x = c := fun e => h.1 e.symm
    simp [IndexByte, hx, ih h.2]

theorem IndexByte_append_cons (s0 t : List Byte) (c : Byte) (h : c ∉ s0) :
    IndexByte (s0 ++ c :: t) c = (s0.length : Int) := by
  induction s0 with
  | nil => simp [IndexByte]
  | cons x xs ih =>
    simp only [List.mem_cons, not_or] at h
    have hx : ¬ x = c := fun e => h.1 e.symm
    have hlen : ¬ ((xs.length : Int) < 0) := by omega
    have e := ih h.2
    rw [List.cons_append, IndexByte]
    simp only [hx, if_false, e, hlen, List.length_cons]
    push_cast
    rfl

theorem genSplitLoop_cut (sep : Byte) (k : Nat) (s0 t : List Byte) (h : sep ∉ s0) :
    genSplitLoop sep (k + 1) (s0 ++ sep :: t) = s0 :: genSplitLoop sep k t := by
  have hlen : ¬ ((s0.length : Int) < 0) := by omega
  simp [genSplitLoop, IndexByte_append_cons s0 t sep h, hlen]

theorem genSplitLoop_last (sep : Byte) (k : Nat) (s : List Byte) (h : sep ∉ s) :
    genSplitLoop sep k s = [s] := by
  cases k with
  | zero => rfl
  | succ k => simp [genSplitLoop, IndexByte_of_not_mem s sep h]

theorem genSplitLoop_cases (sep : Byte) (k : Nat) (s : List Byte) :
    (sep ∉ s ∧ genSplitLoop sep (k + 1) s = [s]) ∨
    (∃ s0 t, s = s0 ++ sep :: t ∧ sep ∉ s0 ∧
      genSplitLoop sep (k + 1) s = s0 :: genSplitLoop sep k t) := by
  by_cases hm : sep ∈ s
  · obtain ⟨s0, t, e, hs0⟩ := List.eq_append_cons_of_mem hm
    exact Or.inr ⟨s0, t, e, hs0, by rw [e]; exact genSplitLoop_cut sep k s0 t hs0⟩
  · exact Or.inl ⟨hm, genSplitLoop_last sep (k + 1) s hm⟩

theorem genSplitLoop_length_le (sep : Byte) (k : Nat) (s : List Byte) :
    (genSplitLoop sep k s).length ≤ s.count sep + 1 := by
  induction k generalizing s with
  | zero => simp [genSplitLoop]
  | succ k ih =>
    rcases genSplitLoop_cases sep k s with ⟨-, e⟩ | ⟨s0, t, rfl, -, e⟩
    · rw [e]; simp
    · rw [e]
      have := ih t
      simp only [List.length_cons, List.count_append, List.count_cons_self]
      omega

theorem genSplitLoop_fuel (sep : Byte) (k k2 : Nat) (s : List Byte)
    (h1 : s.length ≤ k) (h2 : s.length ≤ k2) :
    genSplitLoop sep k s = genSplitLoop sep k2 s := by
  induction k generalizing k2 s with
  | zero =>
    have e : s = [] := List.length_eq_zero.mp (by omega)
    subst e
    rw [genSplitLoop_last sep 0 [] (by simp), genSplitLoop_last sep k2 [] (by simp)]
  | succ k ih =>
    cases k2 with
    | zero =>
      have e : s = [] := List.length_eq_zero.mp (by omega)
      subst e
      rw [genSplitLoop_last sep (k + 1) [] (by simp), genSplitLoop_last sep 0 [] (by simp)]
    | succ k2 =>
      rcases genSplitLoop_cases sep k s with ⟨hs, e⟩ | ⟨s0, t, rfl, hs0, e⟩
      · rw [e, genSplitLoop_last sep (k2 + 1) s hs]
      · rw [e, genSplitLoop_cut sep k2 s0 t hs0]
        simp only [List.length_append, List.length_cons] at h1 h2
        rw [ih k2 t (by omega) (by omega)]

/-- With the limit 4, `SplitN` makes at most three cuts. -/
theorem SplitN_four (b : List Byte) (sep : Byte) : SplitN b sep 4 = genSplitLoop sep 3 b := by
  unfold SplitN
  simp only [show ¬ ((4 : Int) = 0) by decide, if_false, show ¬ ((4 : Int) < 0) by decide]
  by_cases h : (4 : Int) > (b.length : Int) + 1
  · simp only [h, if_true]
    have e : ((b.length : Int) + 1).toNat - 1 = b.length := by omega
    rw [e]
    exact genSplitLoop_fuel sep b.length 3 b (le_refl _) (by omega)
  · simp only [h, if_false]
    rfl

/-- The split of a content with three separators in front of its last part. -/
theorem SplitN_form (s0 s1 s2 s3 : List Byte) (sep : Byte)
    (h0 : sep ∉ s0) (h1 : sep ∉ s1) (h2 : sep ∉ s2) :
    SplitN (s0 ++ sep :: (s1 ++ sep :: (s2 ++ sep :: s3))) sep 4 = [s0, s1, s2, s3] := by
  rw [SplitN_four, genSplitLoop_cut sep 2 s0 _ h0, genSplitLoop_cut sep 1 s1 _ h1,
    genSplitLoop_cut sep 0 s2 _ h2]
  rfl

/-- Four pieces come only from a content with three separators in front of
its last part. -/
theorem SplitN_four_pieces (b l0 l1 l2 l3 : List Byte) (sep : Byte)
    (h : SplitN b sep 4 = [l0, l1, l2, l3]) :
    b = l0 ++ sep :: (l1 ++ sep :: (l2 ++ sep :: l3)) ∧ sep ∉ l0 ∧ sep ∉ l1 ∧ sep ∉ l2 := by
  rw [SplitN_four] at h
  rcases genSplitLoop_cases sep 2 b with ⟨-, e⟩ | ⟨a0, t0, rfl, ha0, e⟩
  · rw [e] at h; simp at h
  rw [e] at h
  rcases genSplitLoop_cases sep 1 t0 with ⟨-, e1⟩ | ⟨a1, t1, rfl, ha1, e1⟩
  · rw [e1] at h; simp at h
  rw [e1] at h
  rcases genSplitLoop_cases sep 0 t1 with ⟨-, e2⟩ | ⟨a2, t2, rfl, ha2, e2⟩
  · rw [e2] at h; simp at h
  rw [e2] at h
  simp only [genSplitLoop, List.cons.injEq, and_true] at h
  obtain ⟨rfl, rfl, rfl, rfl⟩ := h
  exact ⟨rfl, ha0, ha1, ha2⟩

theorem SplitN_length_le (b : List Byte) (sep : Byte) :
    (SplitN b sep 4).length ≤ b.count sep + 1 := by
  rw [SplitN_four]
  exact genSplitLoop_length_le sep 3 b

/-! ## The paths through `Parse` -/

theorem newline_not_mem_Marker : newline ∉ Marker := by decide

/-- Fewer than four pieces: not a mfsymlink. -/
theorem Parse_few_pieces (b : List Byte) (h : (SplitN b newline 4).length ≠ 4) :
    Parse b = .ret emptyString (some .ErrNotMFSymlink) := by
  unfold Parse
  split
  · rename_i e
    rw [e] at h
    simp at h
  · rfl

/-- A first piece other than the marker: not a mfsymlink. -/
theorem Parse_bad_marker (s0 s1 s2 s3 : List Byte)
    (h0 : newline ∉ s0) (h1 : newline ∉ s1) (h2 : newline ∉ s2) (hm : s0 ≠ Marker) :
    Parse (s0 ++ newline :: (s1 ++ newline :: (s2 ++ newline :: s3)))
      = .ret emptyString (some .ErrNotMFSymlink) := by
  unfold Parse
  rw [SplitN_form s0 s1 s2 s3 newline h0 h1 h2]
  simp [mfsymlinkMarker, hm]

/-- A length field that `Atoi` rejects: not a mfsymlink. -/
theorem Parse_bad_length (s1 s2 s3 : List Byte) (e : NumError)
    (h1 : newline ∉ s1) (h2 : newline ∉ s2) (ha : Atoi s1 = .error e) :
    Parse (Marker ++ newline :: (s1 ++ newline :: (s2 ++ newline :: s3)))
      = .ret emptyString (some .ErrNotMFSymlink) := by
  unfold Parse
  rw [SplitN_form Marker s1 s2 s3 newline newline_not_mem_Marker h1 h2]
  simp [mfsymlinkMarker, ha]

/-- A checksum field that `hex.Decode` rejects: not a mfsymlink. -/
theorem Parse_bad_hex (s1 s2 s3 : List Byte) (l : Int) (e : HexError)
    (h1 : newline ∉ s1) (h2 : newline ∉ s2) (ha : Atoi s1 = .ok l) (hd : Decode s2 = .error e) :
    Parse (Marker ++ newline :: (s1 ++ newline :: (s2 ++ newline :: s3)))
      = .ret emptyString (some .ErrNotMFSymlink) := by
  unfold Parse
  rw [SplitN_form Marker s1 s2 s3 newline newline_not_mem_Marker h1 h2]
  simp [mfsymlinkMarker, ha, hd]

/-- A negative length with a decodable checksum: the slice expression
`targetBytes[:l]` panics. -/
theorem Parse_negative_length (s1 s2 s3 : List Byte) (l : Int) (d : List Byte)
    (h1 : newline ∉ s1) (h2 : newline ∉ s2) (ha : Atoi s1 = .ok l) (hd : Decode s2 = .ok d)
    (hl : l < 0) :
    Parse (Marker ++ newline :: (s1 ++ newline :: (s2 ++ newline :: s3))) = .panic := by
  unfold Parse
  rw [SplitN_form Marker s1 s2 s3 newline newline_not_mem_Marker h1 h2]
  have hgt : (s3.length : Int) > l := by omega
  have hn : ¬ (0 ≤ l ∧ l ≤ (s3.length : Int)) := by omega
  simp [mfsymlinkMarker, ha, hd, hgt, sliceTo, hn]

/-- A non-negative length with a decodable checksum: the target is cut to
the declared length and its MD5 compared with the checksum. -/
theorem Parse_checked (s1 s2 s3 : List Byte) (l : Int) (d : List Byte)
    (h1 : newline ∉ s1) (h2 : newline ∉ s2) (ha : Atoi s1 = .ok l) (hd : Decode s2 = .ok d)
    (hl : 0 ≤ l) :
    Parse (Marker ++ newline :: (s1 ++ newline :: (s2 ++ newline :: s3))) =
      if d ≠ Sum (s3.take l.toNat) then .ret emptyString (some .ErrMD5Mismatch)
      else .ret (s3.take l.toNat) none := by
  unfold Parse
  rw [SplitN_form Marker s1 s2 s3 newline newline_not_mem_Marker h1 h2]
  by_cases hgt : (s3.length : Int) > l
  · have hn : 0 ≤ l ∧ l ≤ (s3.length : Int) := by omega
    simp [mfsymlinkMarker, ha, hd, hgt, sliceTo, hn]
  · have ht : s3.take l.toNat = s3 := List.take_of_length_le (by omega)
    simp [mfsymlinkMarker, ha, hd, hgt, ht]

/-- Every call of `Parse` takes one of four paths. -/
theorem Parse_paths (b : List Byte) :
    Parse b = .ret emptyString (some .ErrNotMFSymlink) ∨
    ∃ s1 s2 s3 l d, b = Marker ++ newline :: (s1 ++ newline :: (s2 ++ newline :: s3)) ∧
      newline ∉ s1 ∧ newline ∉ s2 ∧ Atoi s1 = .ok l ∧ Decode s2 = .ok d ∧
      ((l < 0 ∧ Parse b = .panic) ∨
       (0 ≤ l ∧ d ≠ Sum (s3.take l.toNat) ∧ Parse b = .ret emptyString (some .ErrMD5Mismatch)) ∨
       (0 ≤ l ∧ d = Sum (s3.take l.toNat) ∧ Parse b = .ret (s3.take l.toNat) none)) := by
  by_cases hlen : (SplitN b newline 4).length = 4
  swap
  · exact Or.inl (Parse_few_pieces b hlen)
  obtain ⟨s0, s1, s2, s3, hs⟩ : ∃ s0 s1 s2 s3, SplitN b newline 4 = [s0, s1, s2, s3] := by
    match hq : SplitN b newline 4, hlen with
    | [a0, a1, a2, a3], _ => exact ⟨a0, a1, a2, a3, rfl⟩
  obtain ⟨rfl, h0, h1, h2⟩ := SplitN_four_pieces b s0 s1 s2 s3 newline hs
  by_cases hm : s0 = Marker
  swap
  · exact Or.inl (Parse_bad_marker s0 s1 s2 s3 h0 h1 h2 hm)
  subst hm
  cases ha : Atoi s1 with
  | error e => exact Or.inl (Parse_bad_length s1 s2 s3 e h1 h2 ha)
  | ok l =>
    cases hd : Decode s2 with
    | error e => exact Or.inl (Parse_bad_hex s1 s2 s3 l e h1 h2 ha hd)
    | ok d =>
      refine Or.inr ⟨s1, s2, s3, l, d, rfl, h1, h2, ha, hd, ?_⟩
      by_cases hl : l < 0
      · exact Or.inl ⟨hl, Parse_negative_length s1 s2 s3 l d h1 h2 ha hd hl⟩
      · have hl2 : 0 ≤ l := by omega
        have hp := Parse_checked s1 s2 s3 l d h1 h2 ha hd hl2
        by_cases hq : d = Sum (s3.take l.toNat)
        · right; right
          refine ⟨hl2, hq, ?_⟩
          rw [hp]; simp [hq]
        · right; left
          refine ⟨hl2, hq, ?_⟩
          rw [hp]; simp [hq]

/-! ## `strconv.Atoi` on decimal numerals -/

theorem digitsValue_eq_fold (s : List Byte) : digitsValue s = digitsFold 0 s := rfl

theorem digitsFold_ge (s : List Byte) (n : Nat) : n ≤ digitsFold n s := by
  induction s generalizing n with
  | nil => simp [digitsFold]
  | cons c cs ih =>
    have := ih (n * 10 + (c.toNat - 0x30))
    simp only [digitsFold, List.foldl_cons] at this ⊢
    omega

theorem digit_toNat (c : Byte) (h : 0x30 ≤ c ∧ c ≤ 0x39) : 48 ≤ c.toNat ∧ c.toNat ≤ 57 :=
  ⟨UInt8.le_def.mp h.1, UInt8.le_def.mp h.2⟩

theorem parseUintLoop_digits (s : List Byte) (n : Nat) (hs : ∀ c ∈ s, 0x30 ≤ c ∧ c ≤ 0x39)
    (hn : n < 2 ^ 64) :
    parseUintLoop s n =
      if digitsFold n s < 2 ^ 64 then .ok (digitsFold n s) else .error .ErrRange := by
  induction s generalizing n with
  | nil => simp only [parseUintLoop, digitsFold, List.foldl_nil, if_pos hn]
  | cons c cs ih =>
    have hc := hs c (List.mem_cons_self c cs)
    have hcs : ∀ x ∈ cs, 0x30 ≤ x ∧ x ≤ 0x39 := fun x hx => hs x (List.mem_cons_of_mem c hx)
    have hd := digit_toNat c hc
    have hge := digitsFold_ge cs (n * 10 + (c.toNat - 0x30))
    have hfold : digitsFold n (c :: cs) = digitsFold (n * 10 + (c.toNat - 0x30)) cs := rfl
    rw [hfold]
    simp only [parseUintLoop, hc, and_self, if_true, intSize]
    by_cases h1 : n ≥ (2 ^ 64 - 1) / 10 + 1
    · have h2 : ¬ digitsFold (n * 10 + (c.toNat - 0x30)) cs < 2 ^ 64 := by omega
      simp only [h1, if_true, h2, if_false]
    · simp only [h1, if_false]
      by_cases h3 : n * 10 + (c.toNat - 0x30) < 2 ^ 64
      · have e1 : (n * 10 % 2 ^ 64 + (c.toNat - 0x30)) % 2 ^ 64 = n * 10 + (c.toNat - 0x30) := by
          omega
        have e2 : ¬ (n * 10 + (c.toNat - 0x30) < n * 10 % 2 ^ 64 ∨
            n * 10 + (c.toNat - 0x30) > 2 ^ 64 - 1) := by omega
        rw [e1]
        simp only [e2, if_false]
        exact ih (n * 10 + (c.toNat - 0x30)) hcs h3
      · have e2 : ((n * 10 % 2 ^ 64 + (c.toNat - 0x30)) % 2 ^ 64 < n * 10 % 2 ^ 64 ∨
            (n * 10 % 2 ^ 64 + (c.toNat - 0x30)) % 2 ^ 64 > 2 ^ 64 - 1) := by omega
        have h2 : ¬ digitsFold (n * 10 + (c.toNat - 0x30)) cs < 2 ^ 64 := by omega
        simp only [e2, if_true, h2, if_false]

theorem ParseUint_numeral (s : List Byte) (hs : isNumeral s) :
    ParseUint s = if digitsValue s < 2 ^ 64 then .ok (digitsValue s) else .error .ErrRange := by
  unfold ParseUint
  simp only [hs.1, if_false]
  exact parseUintLoop_digits s 0 hs.2 (by norm_num)

/-- On a decimal numeral `Atoi` gives its value, or a range error from
`2^63` on. -/
theorem Atoi_numeral (s : List Byte) (hs : isNumeral s) :
    Atoi s = if digitsValue s < 2 ^ 63 then .ok (digitsValue s : Int) else .error .ErrRange := by
  obtain ⟨hne, hdig⟩ := hs
  cases s with
  | nil => exact absurd rfl hne
  | cons c cs =>
    have hc := digit_toNat c (hdig c (List.mem_cons_self c cs))
    have hplus : ¬ c = 0x2b := by
      intro e; rw [e] at hc; revert hc; decide
    have hminus : ¬ c = 0x2d := by
      intro e; rw [e] at hc; revert hc; decide
    have hu := ParseUint_numeral (c :: cs) ⟨hne, hdig⟩
    simp only [Atoi, ParseInt, hplus, hminus, or_self, if_false]
    by_cases h64 : digitsValue (c :: cs) < 2 ^ 64
    · rw [hu]
      simp only [h64, if_true, intSize]
      by_cases h63 : digitsValue (c :: cs) < 2 ^ 63
      · have h1 : ¬ (digitsValue (c :: cs) ≥ 2 ^ (64 - 1)) := by omega
        simp only [h63, h1, and_false, false_and, if_false, if_true]
      · have h1 : digitsValue (c :: cs) ≥ 2 ^ (64 - 1) := by omega
        simp only [h63, h1, and_true, not_false_eq_true, and_self, if_false, if_true]
    · rw [hu]
      have h63 : ¬ digitsValue (c :: cs) < 2 ^ 63 := by omega
      simp only [h64, if_false, h63]

theorem newline_not_mem_numeral (s : List Byte) (hs : isNumeral s) : newline ∉ s := by
  intro hm
  have := digit_toNat newline (hs.2 newline hm)
  revert this
  decide

theorem digitChar_toNat (d : Nat) (h : d < 10) : (digitChar d).toNat = 48 + d := by
  have e : (digitChar d).toNat = (48 + d) % 256 := rfl
  rw [e]
  omega

theorem digitChar_digit (d : Nat) (h : d < 10) : 0x30 ≤ digitChar d ∧ digitChar d ≤ 0x39 := by
  have e := digitChar_toNat d h
  constructor
  · apply UInt8.le_def.mpr
    show (48 : Nat) ≤ (digitChar d).toNat
    omega
  · apply UInt8.le_def.mpr
    show (digitChar d).toNat ≤ 57
    omega

theorem digitsFold_append (n : Nat) (s t : List Byte) :
    digitsFold n (s ++ t) = digitsFold (digitsFold n s) t := by
  simp [digitsFold, List.foldl_append]

theorem decimal_numeral (n : Nat) : isNumeral (decimal n) ∧ digitsValue (decimal n) = n := by
  induction n using Nat.strong_induction_on with
  | _ n ih =>
    rw [decimal]
    by_cases h : n < 10
    · simp only [h, if_true]
      refine ⟨⟨by simp, ?_⟩, ?_⟩
      · intro c hc
        rw [List.mem_singleton] at hc
        rw [hc]
        exact digitChar_digit n h
      · simp only [digitsValue, List.foldl_cons, List.foldl_nil, digitChar_toNat n h]
        omega
    · simp only [h, if_false]
      obtain ⟨⟨-, hd⟩, hv⟩ := ih (n / 10) (by omega)
      have hlt : n % 10 < 10 := Nat.mod_lt _ (by norm_num)
      refine ⟨⟨by simp, ?_⟩, ?_⟩
      · intro c hc
        rcases List.mem_append.mp hc with hc | hc
        · exact hd c hc
        · rw [List.mem_singleton] at hc
          rw [hc]
          exact digitChar_digit _ hlt
      · rw [digitsValue_eq_fold, digitsFold_append, ← digitsValue_eq_fold, hv]
        simp only [digitsFold, List.foldl_cons, List.foldl_nil, digitChar_toNat _ hlt]
        omega

theorem Atoi_decimal (n : Nat) (h : n < 2 ^ 63) : Atoi (decimal n) = .ok (n : Int) := by
  rw [Atoi_numeral _ (decimal_numeral n).1, (decimal_numeral n).2, if_pos h]

/-! ## `encoding/hex` -/

theorem hexPairOk_all (v : Byte) : hexPairOk v := by
  have h : ∀ n : Fin 256, hexPairOk (UInt8.mk (BitVec.ofFin n)) := by decide!
  cases v with
  | mk bv =>
    cases bv with
    | ofFin n => exact h n

theorem Decode_hexEncode (d : List Byte) : Decode (hexEncode d) = .ok d := by
  induction d with
  | nil => rfl
  | cons v vs ih =>
    obtain ⟨h1, h2, h3, -, -⟩ := hexPairOk_all v
    simp only [hexEncode, Decode, h1, h2, ih, h3]

theorem newline_not_mem_hexEncode (d : List Byte) : newline ∉ hexEncode d := by
  induction d with
  | nil => simp [hexEncode]
  | cons v vs ih =>
    obtain ⟨-, -, -, h4, h5⟩ := hexPairOk_all v
    simp only [hexEncode, List.mem_cons, not_or]
    exact ⟨fun e => h4 e.symm, fun e => h5 e.symm, ih⟩

theorem Decode_ok_iff_aux (s : List Byte) : (∃ d, Decode s = .ok d) ↔ hexDecodable s := by
  induction s using Decode.induct with

  | case1 => simp [Decode, hexDecodable]
  | case2 p h =>
    simp [Decode, h, hexDecodable]
  | case3 p x h =>
    simp [Decode, h, hexDecodable]
  | case4 p q rest h =>
    simp only [Decode, h, hexDecodable, List.length_cons, List.mem_cons, forall_eq_or_imp,
      Option.isSome_none]
    simp
  | case5 p q rest a h1 h2 =>
    simp only [Decode, h1, h2, hexDecodable, List.length_cons, List.mem_cons, forall_eq_or_imp,
      Option.isSome_none]
    simp
  | case6 p q rest a b h1 h2 e he ih =>
    have hn : ¬ hexDecodable rest := fun hv => by
      obtain ⟨d, hd⟩ := ih.mpr hv
      rw [he] at hd
      cases hd
    simp only [Decode, h1, h2, he, hexDecodable, List.length_cons, List.mem_cons, forall_eq_or_imp,
      Option.isSome_some, true_and]
    constructor
    · rintro ⟨d, hd⟩; cases hd
    · rintro ⟨hl, hc⟩
      exact absurd ⟨by omega, hc⟩ hn
  | case7 p q rest a b h1 h2 ds he ih =>
    have hv : hexDecodable rest := ih.mp ⟨ds, he⟩
    simp only [Decode, h1, h2, he, hexDecodable, List.length_cons, List.mem_cons, forall_eq_or_imp,
      Option.isSome_some, true_and]
    constructor
    · intro _
      exact ⟨by have := hv.1; omega, hv.2⟩
    · intro _
      exact ⟨_, rfl⟩

theorem fromHexChar_isSome_iff (c : Byte) : (fromHexChar c).isSome ↔ isHexDigit c := by
  unfold fromHexChar isHexDigit
  split
  · simp [*]
  · split
    · simp [*]
    · split <;> simp [*]

theorem validHex_iff (s : List Byte) :
    validHex s ↔ s.length % 2 = 0 ∧ ∀ c ∈ s, (fromHexChar c).isSome := by
  simp only [validHex, fromHexChar_isSome_iff]

/-- `hex.Decode` succeeds exactly on valid hexadecimal data of even length. -/
theorem Decode_ok_iff (s : List Byte) : (∃ d, Decode s = .ok d) ↔ validHex s := by
  rw [validHex_iff]
  exact Decode_ok_iff_aux s

theorem Decode_error_of_not_validHex (s : List Byte) (h : ¬ validHex s) :
    ∃ e, Decode s = .error e := by
  cases hd : Decode s with
  | error e => exact ⟨e, rfl⟩
  | ok d => exact absurd ((Decode_ok_iff s).mp ⟨d, hd⟩) h

theorem Decode_length (s d : List Byte) (h : Decode s = .ok d) : d.length = DecodedLen s.length := by
  induction s using Decode.induct generalizing d with
  | case1 => simp [Decode] at h; subst h; rfl
  | case2 p hp => simp [Decode, hp] at h
  | case3 p x hp => simp [Decode, hp] at h
  | case4 p q rest hp => simp [Decode, hp] at h
  | case5 p q rest a h1 h2 => simp [Decode, h1, h2] at h
  | case6 p q rest a b h1 h2 e he ih => simp [Decode, h1, h2, he] at h
  | case7 p q rest a b h1 h2 ds he ih =>
    simp only [Decode, h1, h2, he, Except.ok.injEq] at h
    subst h
    have := ih ds he
    simp only [List.length_cons, DecodedLen] at this ⊢
    omega

/-! ## `crypto/md5` -/

theorem leBytes_length (k x : Nat) : (leBytes k x).length = k := by
  induction k generalizing x with
  | zero => rfl
  | succ k ih => simp [leBytes, ih]

/-- A digest has `md5.Size = 16` bytes. -/
theorem Sum_length (data : List Byte) : (Sum data).length = 16 := by
  simp [Sum, leBytes_length]

theorem header_append (n h S : List Byte) :
    header n h ++ S = Marker ++ newline :: (n ++ newline :: (h ++ newline :: S)) := by
  simp [header]

theorem newline_not_mem_validHex (s : List Byte) (h : validHex s) : newline ∉ s := by
  intro hm
  have := h.2 newline hm
  revert this
  decide

theorem newline_not_mem_of_Decode (s d : List Byte) (h : Decode s = .ok d) : newline ∉ s :=
  newline_not_mem_validHex s ((Decode_ok_iff s).mp ⟨d, h⟩)

theorem takeWhile_cut (s0 t : List Byte) (c : Byte) (h : c ∉ s0) :
    (s0 ++ c :: t).takeWhile (fun x => x != c) = s0 := by
  induction s0 with
  | nil => simp
  | cons x xs ih =>
    simp only [List.mem_cons, not_or] at h
    have hx : x ≠ c := fun e => h.1 e.symm
    simp [List.takeWhile_cons, hx, ih h.2]

theorem take_min_length (S : List Byte) (k : Nat) : S.take (min k S.length) = S.take k := by
  rcases Nat.le_total k S.length with hle | hle
  · rw [Nat.min_eq_left hle]
  · rw [Nat.min_eq_right hle, List.take_of_length_le hle, List.take_of_length_le (le_refl _)]

/-- On a minus sign followed by a decimal numeral `Atoi` gives the negated
value, or a range error beyond `-2^63`. -/
theorem Atoi_minus_numeral (s : List Byte) (hs : isNumeral s) :
    Atoi (0x2d :: s) =
      if digitsValue s ≤ 2 ^ 63 then .ok (-(digitsValue s : Int)) else .error .ErrRange := by
  have hu := ParseUint_numeral s hs
  simp only [Atoi, ParseInt, or_true, if_true]
  by_cases h64 : digitsValue s < 2 ^ 64
  · rw [hu]
    simp only [h64, if_true, intSize]
    by_cases h63 : digitsValue s ≤ 2 ^ 63
    · have h1 : ¬ (digitsValue s > 2 ^ (64 - 1)) := by omega
      simp only [h63, h1, and_false, not_true_eq_false, false_and, if_false, if_true]
    · have h1 : digitsValue s > 2 ^ (64 - 1) := by omega
      simp only [h63, h1, and_self, not_true_eq_false, false_and, if_false, if_true]
  · rw [hu]
    have h63 : ¬ digitsValue s ≤ 2 ^ 63 := by omega
    simp only [h64, if_false, h63]

theorem parseUintLoop_ok_digits (s : List Byte) (n m : Nat) (h : parseUintLoop s n = .ok m) :
    ∀ c ∈ s, 0x30 ≤ c ∧ c ≤ 0x39 := by
  induction s generalizing n with
  | nil => simp
  | cons c cs ih =>
    by_cases hc : 0x30 ≤ c ∧ c ≤ 0x39
    · simp only [parseUintLoop, hc, and_self, if_true] at h
      split at h
      · cases h
      · split at h
        · cases h
        · intro x hx
          rcases List.mem_cons.mp hx with e | e
          · rw [e]; exact hc
          · exact ih _ h x e
    · simp only [parseUintLoop, hc, if_false] at h
      cases h

theorem ParseUint_ok_digits (s : List Byte) (m : Nat) (h : ParseUint s = .ok m) :
    ∀ c ∈ s, 0x30 ≤ c ∧ c ≤ 0x39 := by
  unfold ParseUint at h
  by_cases hs : s = []
  · rw [if_pos hs] at h; cases h
  · rw [if_neg hs] at h
    exact parseUintLoop_ok_digits s 0 m h

/-- A length field that `Atoi` accepts holds no newline. -/
theorem newline_not_mem_of_Atoi (s : List Byte) (l : Int) (h : Atoi s = .ok l) : newline ∉ s := by
  cases s with
  | nil => simp
  | cons c cs =>
    simp only [Atoi, ParseInt] at h
    cases hu : ParseUint (if c = 0x2b ∨ c = 0x2d then cs else c :: cs) with
    | error e => rw [hu] at h; cases h
    | ok un =>
      have hd := ParseUint_ok_digits _ un hu
      intro hm
      by_cases hsign : c = 0x2b ∨ c = 0x2d
      · rw [if_pos hsign] at hd
        rcases List.mem_cons.mp hm with e | e
        · rw [← e] at hsign
          revert hsign
          decide
        · have := digit_toNat newline (hd newline e)
          revert this
          decide
      · rw [if_neg hsign] at hd
        have := digit_toNat newline (hd newline hm)
        revert this
        decide

/-- `Parse` panics exactly on a content with the marker, a length field
that parses to a negative `int` and a checksum field that decodes. -/
theorem Parse_panic_iff (b : List Byte) :
    Parse b = .panic ↔
      ∃ (n hx S : List Byte) (l : Int) (d : List Byte),
        b = header n hx ++ S ∧ Atoi n = .ok l ∧ l < 0 ∧ Decode hx = .ok d := by
  constructor
  · intro h
    rcases Parse_paths b with h1 | ⟨s1, s2, s3, l, d, rfl, -, -, ha, hd, hc⟩
    · rw [h1] at h; cases h
    rcases hc with ⟨hl, -⟩ | ⟨-, -, hp⟩ | ⟨-, -, hp⟩
    · exact ⟨s1, s2, s3, l, d, (header_append s1 s2 s3).symm, ha, hl, hd⟩
    · rw [hp] at h; cases h
    · rw [hp] at h; cases h
  · rintro ⟨n, hx, S, l, d, rfl, ha, hl, hd⟩
    rw [header_append]
    exact Parse_negative_length n hx S l d (newline_not_mem_of_Atoi n l ha)
      (newline_not_mem_of_Decode hx d hd) ha hd hl

/-! ## The length field enters `Parse` only through `Atoi` -/

/-- Two length fields on which `Atoi` agrees give the same result, whatever
follows the second newline. -/
theorem Parse_length_field_congr (n1 n2 R : List Byte) (h1 : newline ∉ n1) (h2 : newline ∉ n2)
    (ha : Atoi n1 = Atoi n2) :
    Parse (Marker ++ newline :: (n1 ++ newline :: R)) =
      Parse (Marker ++ newline :: (n2 ++ newline :: R)) := by
  by_cases hR : newline ∈ R
  · obtain ⟨s2, s3, rfl, hs2⟩ := List.eq_append_cons_of_mem hR
    unfold Parse
    rw [SplitN_form Marker n1 s2 s3 newline newline_not_mem_Marker h1 hs2,
      SplitN_form Marker n2 s2 s3 newline newline_not_mem_Marker h2 hs2]
    simp only [ha]
  · have hc : ∀ n : List Byte, newline ∉ n →
        Parse (Marker ++ newline :: (n ++ newline :: R)) =
          .ret emptyString (some .ErrNotMFSymlink) := by
      intro n hn
      apply Parse_few_pieces
      have hlen := SplitN_length_le (Marker ++ newline :: (n ++ newline :: R)) newline
      have e : (Marker ++ newline :: (n ++ newline :: R)).count newline = 2 := by
        simp only [List.count_append, List.count_cons_self,
          List.count_eq_zero_of_not_mem newline_not_mem_Marker,
          List.count_eq_zero_of_not_mem hn, List.count_eq_zero_of_not_mem hR]
      omega
    rw [hc n1 h1, hc n2 h2]

/-- On a plus sign followed by a decimal numeral `Atoi` gives what it gives
on the numeral alone. -/
theorem Atoi_plus_numeral (s : List Byte) (hs : isNumeral s) : Atoi (0x2b :: s) = Atoi s := by
  rw [Atoi_numeral s hs]
  have hu := ParseUint_numeral s hs
  have hneg : ¬ ((0x2b : Byte) = 0x2d) := by decide
  simp only [Atoi, ParseInt, true_or, if_true, hneg, false_and, if_false, not_false_eq_true,
    true_and]
  by_cases h64 : digitsValue s < 2 ^ 64
  · rw [hu]
    simp only [h64, if_true, intSize]
    by_cases h63 : digitsValue s < 2 ^ 63
    · have h1 : ¬ (digitsValue s ≥ 2 ^ (64 - 1)) := by omega
      simp only [h63, h1, if_false, if_true]
    · have h1 : digitsValue s ≥ 2 ^ (64 - 1) := by omega
      simp only [h63, h1, if_false, if_true]
  · rw [hu]
    have h63 : ¬ digitsValue s < 2 ^ 63 := by omega
    simp only [h64, if_false, h63]

theorem digitsFold_zeros (k : Nat) : digitsFold 0 (List.replicate k 0x30) = 0 := by
  induction k with
  | zero => rfl
  | succ k ih =>
    rw [List.replicate_succ]
    exact ih

theorem isNumeral_zeros_append (k : Nat) (s : List Byte) (hs : isNumeral s) :
    isNumeral (List.replicate k 0x30 ++ s) ∧
      digitsValue (List.replicate k 0x30 ++ s) = digitsValue s := by
  refine ⟨⟨?_, ?_⟩, ?_⟩
  · intro e
    exact hs.1 (List.append_eq_nil.mp e).2
  · intro c hc
    rcases List.mem_append.mp hc with hc | hc
    · rw [List.eq_of_mem_replicate hc]
      decide
    · exact hs.2 c hc
  · rw [digitsValue_eq_fold, digitsFold_append, digitsFold_zeros k, ← digitsValue_eq_fold]

/-- Leading zeros do not change what `Atoi` gives on a decimal numeral. -/
theorem Atoi_zeros_numeral (k : Nat) (s : List Byte) (hs : isNumeral s) :
    Atoi (List.replicate k 0x30 ++ s) = Atoi s := by
  obtain ⟨hz, hv⟩ := isNumeral_zeros_append k s hs
  rw [Atoi_numeral _ hz, Atoi_numeral s hs, hv]

/-! ## Bytes after the declared length -/

/-- With a payload of exactly the declared length, what follows the payload
does not enter the result. -/
theorem Parse_padding_congr (n h P X Y : List Byte) (hn : isNumeral n) (hh : newline ∉ h)
    (hP : P.length = digitsValue n) :
    Parse (header n h ++ P ++ X) = Parse (header n h ++ P ++ Y) := by
  have hn1 := newline_not_mem_numeral n hn
  rw [List.append_assoc, List.append_assoc, header_append, header_append]
  by_cases hL : digitsValue n < 2 ^ 63
  · have ha : Atoi n = .ok (digitsValue n : Int) := by rw [Atoi_numeral n hn, if_pos hL]
    cases hd : Decode h with
    | error e =>
      rw [Parse_bad_hex n h (P ++ X) _ e hn1 hh ha hd, Parse_bad_hex n h (P ++ Y) _ e hn1 hh ha hd]
    | ok d =>
      rw [Parse_checked n h (P ++ X) _ d hn1 hh ha hd (by omega),
        Parse_checked n h (P ++ Y) _ d hn1 hh ha hd (by omega)]
      simp only [Int.toNat_ofNat, ← hP, List.take_left]
  · have ha : Atoi n = .error .ErrRange := by rw [Atoi_numeral n hn, if_neg hL]
    rw [Parse_bad_length n h (P ++ X) _ hn1 hh ha, Parse_bad_length n h (P ++ Y) _ hn1 hh ha]

/-- A decoded checksum field of a length other than 32 characters is not
an MD5 digest. -/
theorem Decode_ne_Sum (h d data : List Byte) (hd : Decode h = .ok d) (hlen : h.length ≠ 32) :
    d ≠ Sum data := by
  intro e
  have h1 := Decode_length h d hd
  have h2 := ((Decode_ok_iff h).mp ⟨d, hd⟩).1
  rw [e, Sum_length, DecodedLen] at h1
  omega

/-! ## The checksum field enters `Parse` only through `hex.Decode` -/

/-- Two checksum fields on which `hex.Decode` agrees give the same result. -/
theorem Parse_checksum_field_congr (s0 s1 s2 t2 s3 : List Byte) (h0 : newline ∉ s0)
    (h1 : newline ∉ s1) (h2 : newline ∉ s2) (ht2 : newline ∉ t2) (hd : Decode t2 = Decode s2) :
    Parse (s0 ++ newline :: (s1 ++ newline :: (t2 ++ newline :: s3))) =
      Parse (s0 ++ newline :: (s1 ++ newline :: (s2 ++ newline :: s3))) := by
  unfold Parse
  rw [SplitN_form s0 s1 t2 s3 newline h0 h1 ht2, SplitN_form s0 s1 s2 s3 newline h0 h1 h2]
  simp only [hd]

theorem hexCaseOk_all (c : Byte) : hexCaseOk c := by
  have h : ∀ n : Fin 256, hexCaseOk (UInt8.mk (BitVec.ofFin n)) := by decide!
  cases c with
  | mk bv =>
    cases bv with
    | ofFin n => exact h n

theorem hexCaseVariant_spec (c1 c2 : Byte) (hv : hexCaseVariant c1 c2) :
    fromHexChar c2 = fromHexChar c1 ∧ (fromHexChar c1 = none → c2 = c1) ∧
      (c1 ≠ newline → c2 ≠ newline) := by
  obtain ⟨hlow, hup⟩ := hexCaseOk_all c1
  rcases hv with rfl | ⟨ha, hb, rfl⟩ | ⟨ha, hb, rfl⟩
  · exact ⟨rfl, fun _ => rfl, fun h => h⟩
  · obtain ⟨e, hne, hnl⟩ := hlow ⟨ha, hb⟩
    exact ⟨e, fun h => absurd h hne, fun _ => hnl⟩
  · obtain ⟨e, hne, hnl⟩ := hup ⟨ha, hb⟩
    exact ⟨e, fun h => absurd h hne, fun _ => hnl⟩

theorem newline_not_mem_caseVariant (s t : List Byte) (hv : List.Forall₂ hexCaseVariant s t)
    (hs : newline ∉ s) : newline ∉ t := by
  induction hv with
  | nil => simp
  | cons hc _ ih =>
    simp only [List.mem_cons, not_or] at hs ⊢
    exact ⟨fun e => (hexCaseVariant_spec _ _ hc).2.2 (fun e2 => hs.1 e2.symm) e.symm, ih hs.2⟩

/-- `hex.Decode` does not see the case of the letters. -/
theorem Decode_caseVariant :
    ∀ (s t : List Byte), List.Forall₂ hexCaseVariant s t → Decode t = Decode s
  | [], _, hv => by cases hv; rfl
  | [p], _, hv => by
    cases hv with
    | cons hp ht =>
      cases ht
      obtain ⟨e, hnone, -⟩ := hexCaseVariant_spec _ _ hp
      cases hf : fromHexChar p with
      | none => rw [hnone hf]
      | some v => simp only [Decode, e, hf]
  | p :: q :: rest, _, hv => by
    cases hv with
    | cons hp ht =>
      cases ht with
      | cons hq hr =>
        have ih := Decode_caseVariant rest _ hr
        obtain ⟨ep, hnp, -⟩ := hexCaseVariant_spec _ _ hp
        obtain ⟨eq, hnq, -⟩ := hexCaseVariant_spec _ _ hq
        cases hfp : fromHexChar p with
        | none => simp only [Decode, ep, hfp, hnp hfp]
        | some a =>
          cases hfq : fromHexChar q with
          | none => simp only [Decode, ep, eq, hfp, hfq, hnq hfq]
          | some b => simp only [Decode, ep, eq, hfp, hfq, ih]

theorem hexCaseVariant_upper (c : Byte) : hexCaseVariant c (upperHexChar c) := by
  unfold hexCaseVariant upperHexChar
  by_cases h : 0x61 ≤ c ∧ c ≤ 0x66
  · rw [if_pos h]
    exact Or.inr (Or.inl ⟨h.1, h.2, rfl⟩)
  · rw [if_neg h]
    exact Or.inl rfl

theorem caseVariant_map_upper (s : List Byte) :
    List.Forall₂ hexCaseVariant s (s.map upperHexChar) := by
  induction s with
  | nil => exact List.Forall₂.nil
  | cons c cs ih => exact List.Forall₂.cons (hexCaseVariant_upper c) ih

/-! ## The test table of `TestParse` -/

theorem Parse_test_nil : Parse [] = .ret emptyString (some .ErrNotMFSymlink) := by decide!

theorem Parse_test_no_marker :
    Parse (ascii "\n\n\n") = .ret emptyString (some .ErrNotMFSymlink) := by decide!

theorem Parse_test_invalid_marker :
    Parse (ascii "jjj\n\n\n") = .ret emptyString (some .ErrNotMFSymlink) := by decide!

theorem Parse_test_non_numeric_length :
    Parse (ascii "XSym\njj\n\n") = .ret emptyString (some .ErrNotMFSymlink) := by decide!

theorem Parse_test_malformed_md5 :
    Parse (ascii "XSym\n10\nx\n") = .ret emptyString (some .ErrNotMFSymlink) := by decide!

theorem Parse_test_invalid_md5 :
    Parse (ascii "XSym\n10\n\n") = .ret emptyString (some .ErrMD5Mismatch) := by decide!

theorem Parse_test_success :
    Parse validMFSymlink = .ret (ascii "../XXXX-XX-XX/XXXXXXXXXXXX") none := by decide!

/-! ## The claims -/

/-- C1. Round trip: for every target `T` (of a length a Go slice can have),
`Parse` applied to the envelope of `T` (marker, decimal length, lower-case
hexadecimal MD5 and `T` itself) returns `T` and no error. -/
theorem Parse_envelope_roundtrip (T : List Byte) (hT : T.length < 2 ^ 63) :
    Parse (envelope T) = .ret T none := by
  unfold envelope
  rw [header_append, Parse_checked (decimal T.length) (hexEncode (Sum T)) T (T.length : Int) (Sum T)
    (newline_not_mem_numeral _ (decimal_numeral _).1) (newline_not_mem_hexEncode _)
    (Atoi_decimal _ hT) (Decode_hexEncode _) (by omega)]
  simp

theorem Parse_envelope_roundtrip_witness :
    (ascii "XXXXXXXXXX").length < 2 ^ 63 ∧
      Parse (envelope (ascii "XXXXXXXXXX")) = .ret (ascii "XXXXXXXXXX") none :=
  ⟨by decide, Parse_envelope_roundtrip (ascii "XXXXXXXXXX") (by decide)⟩

/-- C2. `Parse` can panic: on the content `"XSym\n-1\n\n"` the length
field parses to `-1`, the empty checksum field decodes, and the slice
expression `targetBytes[:l]` is out of range. -/
theorem Parse_panics_on_minus_one : Parse (ascii "XSym\n-1\n\n") = .panic := by decide!

/-- C3 fails as stated. The length field `9223372036854775808` is a
decimal numeral of the non-negative integer `2^63` and the empty checksum
field is valid hexadecimal data that decodes to no byte, so the digest of
the target differs from it; still `Parse` does not return `ErrMD5Mismatch`
(`Atoi` reports a range error and `Parse` returns `ErrNotMFSymlink`). -/
theorem Parse_huge_length_not_mismatch :
    ¬ ∀ n h S D : List Byte, isNumeral n → validHex h → Decode h = .ok D →
        Sum (S.take (min (digitsValue n) S.length)) ≠ D →
        Parse (header n h ++ S) = .ret emptyString (some .ErrMD5Mismatch) := by
  intro hall
  have h1 := hall (ascii "9223372036854775808") [] [] [] (by decide) (by decide) rfl
    (by decide!)
  revert h1
  decide!

/-- C3, amended. For a well-formed envelope whose length field is a decimal
numeral of an integer `L < 2^63` and whose checksum field decodes to `D`:
if the MD5 of the first `min(L, len(S))` bytes of the fourth segment `S`
differs from `D`, `Parse` returns the empty target with `ErrMD5Mismatch`. -/
theorem Parse_reports_corrupt_payload (n h S D : List Byte) (hn : isNumeral n)
    (hL : digitsValue n < 2 ^ 63) (hh : Decode h = .ok D)
    (hne : Sum (S.take (min (digitsValue n) S.length)) ≠ D) :
    Parse (header n h ++ S) = .ret emptyString (some .ErrMD5Mismatch) := by
  have ha : Atoi n = .ok (digitsValue n : Int) := by rw [Atoi_numeral n hn, if_pos hL]
  have ht : S.take (min (digitsValue n) S.length) = S.take (digitsValue n) := by
    rcases Nat.le_total (digitsValue n) S.length with hle | hle
    · rw [Nat.min_eq_left hle]
    · rw [Nat.min_eq_right hle, List.take_of_length_le hle, List.take_of_length_le (le_refl _)]
  rw [ht] at hne
  rw [header_append, Parse_checked n h S _ D (newline_not_mem_numeral n hn)
    (newline_not_mem_of_Decode h D hh) ha hh (by omega)]
  simp only [Int.toNat_ofNat]
  rw [if_pos (fun e => hne e.symm)]

theorem Parse_reports_corrupt_payload_witness :
    isNumeral (ascii "10") ∧ digitsValue (ascii "10") < 2 ^ 63 ∧ Decode [] = .ok [] ∧
      Sum (([] : List Byte).take (min (digitsValue (ascii "10")) ([] : List Byte).length)) ≠ [] ∧
      Parse (header (ascii "10") [] ++ []) = .ret emptyString (some .ErrMD5Mismatch) :=
  ⟨by decide, by decide, rfl, by decide!,
    Parse_reports_corrupt_payload (ascii "10") [] [] [] (by decide) (by decide) rfl (by decide!)⟩

/-- C4. Truncation ignores trailing bytes: with a length field that is a
decimal numeral of `L`, a checksum field without newline and a payload `P`
of exactly `L` bytes, `Parse` gives the same result, in target and error,
whatever follows `P`; and when the checksum field is the hexadecimal MD5 of
`P`, that is, decodes to the MD5 of `P` (and `P` has a length a Go slice can
have), the result is the target `P` with no error, whatever the padding. -/
theorem Parse_ignores_padding (n h P X Y : List Byte) (hn : isNumeral n) (hh : newline ∉ h)
    (hP : P.length = digitsValue n) :
    Parse (header n h ++ P ++ X) = Parse (header n h ++ P ++ Y) ∧
      (Decode h = .ok (Sum P) → P.length < 2 ^ 63 →
        Parse (header n h ++ P ++ X) = .ret P none ∧ Parse (header n h ++ P ++ Y) = .ret P none) := by
  have hn1 := newline_not_mem_numeral n hn
  have htake : ∀ Z : List Byte, (P ++ Z).take (digitsValue n) = P := by
    intro Z
    rw [← hP]
    exact List.take_left _ _
  have hparse : ∀ (Z : List Byte) (d : List Byte), digitsValue n < 2 ^ 63 → Decode h = .ok d →
      Parse (header n h ++ P ++ Z) =
        if d ≠ Sum P then .ret emptyString (some .ErrMD5Mismatch) else .ret P none := by
    intro Z d hL hd
    have ha : Atoi n = .ok (digitsValue n : Int) := by rw [Atoi_numeral n hn, if_pos hL]
    rw [List.append_assoc, header_append, Parse_checked n h (P ++ Z) _ d hn1 hh ha hd (by omega)]
    simp only [Int.toNat_ofNat, htake Z]
  constructor
  · by_cases hL : digitsValue n < 2 ^ 63
    · cases hd : Decode h with
      | error e =>
        have ha : Atoi n = .ok (digitsValue n : Int) := by rw [Atoi_numeral n hn, if_pos hL]
        rw [List.append_assoc, List.append_assoc, header_append, header_append,
          Parse_bad_hex n h (P ++ X) _ e hn1 hh ha hd, Parse_bad_hex n h (P ++ Y) _ e hn1 hh ha hd]
      | ok d => rw [hparse X d hL hd, hparse Y d hL hd]
    · have ha : Atoi n = .error .ErrRange := by rw [Atoi_numeral n hn, if_neg hL]
      rw [List.append_assoc, List.append_assoc, header_append, header_append,
        Parse_bad_length n h (P ++ X) _ hn1 hh ha, Parse_bad_length n h (P ++ Y) _ hn1 hh ha]
  · intro he hlen
    rw [hparse X (Sum P) (by omega) he, hparse Y (Sum P) (by omega) he]
    simp

theorem Parse_ignores_padding_witness :
    isNumeral (ascii "0002") ∧ newline ∉ hexEncode (Sum (ascii "ab")) ∧
      (ascii "ab").length = digitsValue (ascii "0002") ∧
      (Parse (header (ascii "0002") (hexEncode (Sum (ascii "ab"))) ++ ascii "ab" ++ ascii "\n  ") =
          Parse (header (ascii "0002") (hexEncode (Sum (ascii "ab"))) ++ ascii "ab" ++ []) ∧
        (Decode (hexEncode (Sum (ascii "ab"))) = .ok (Sum (ascii "ab")) →
          (ascii "ab").length < 2 ^ 63 →
          Parse (header (ascii "0002") (hexEncode (Sum (ascii "ab"))) ++ ascii "ab" ++ ascii "\n  ")
              = .ret (ascii "ab") none ∧
            Parse (header (ascii "0002") (hexEncode (Sum (ascii "ab"))) ++ ascii "ab" ++ [])
              = .ret (ascii "ab") none)) :=
  ⟨by decide, newline_not_mem_hexEncode _, by decide,
    Parse_ignores_padding (ascii "0002") (hexEncode (Sum (ascii "ab"))) (ascii "ab") (ascii "\n  ") []
      (by decide) (newline_not_mem_hexEncode _) (by decide)⟩

/-- C5. Success is sound: when `Parse` returns a target `t` and no error,
the content has at least three newlines and begins with `"XSym\n"`; with
`n`, `hx` the second and third segments and `S` everything after the third
newline, `n` parses to an integer `L` (which is not negative), `t` is the
first `min(L, len(S))` bytes of `S`, and the MD5 of `t` is the decoding of
`hx`. -/
theorem Parse_success_sound (b t : List Byte) (h : Parse b = .ret t none) :
    3 ≤ b.count newline ∧ ascii "XSym\n" <+: b ∧
    ∃ (n hx S : List Byte) (L : Int) (D : List Byte),
      b = header n hx ++ S ∧ newline ∉ n ∧ newline ∉ hx ∧
      Atoi n = .ok L ∧ 0 ≤ L ∧ Decode hx = .ok D ∧
      t = S.take (min L.toNat S.length) ∧ Sum t = D := by
  rcases Parse_paths b with h1 | ⟨s1, s2, s3, l, d, rfl, hn1, hn2, ha, hd, hc⟩
  · rw [h1] at h; cases h
  rcases hc with ⟨-, hp⟩ | ⟨-, -, hp⟩ | ⟨hl, hsum, hp⟩
  · rw [hp] at h; cases h
  · rw [hp] at h; cases h
  rw [hp] at h
  injection h with ht
  subst ht
  refine ⟨?_, ?_, s1, s2, s3, l, d, (header_append s1 s2 s3).symm, hn1, hn2, ha, hl, hd, ?_, hsum.symm⟩
  · simp only [List.count_append, List.count_cons_self]
    omega
  · have e : ascii "XSym\n" = Marker ++ [newline] := by decide
    exact ⟨s1 ++ newline :: (s2 ++ newline :: s3), by rw [e]; simp⟩
  · rw [take_min_length]

theorem Parse_success_sound_witness :
    Parse (ascii "XSym\n10\nc59195470191ddf4c0f9e54e33046386\nXXXXXXXXXX")
        = .ret (ascii "XXXXXXXXXX") none ∧
      3 ≤ (ascii "XSym\n10\nc59195470191ddf4c0f9e54e33046386\nXXXXXXXXXX").count newline ∧
      ascii "XSym\n" <+: ascii "XSym\n10\nc59195470191ddf4c0f9e54e33046386\nXXXXXXXXXX" ∧
      ∃ (n hx S : List Byte) (L : Int) (D : List Byte),
        ascii "XSym\n10\nc59195470191ddf4c0f9e54e33046386\nXXXXXXXXXX" = header n hx ++ S ∧
        newline ∉ n ∧ newline ∉ hx ∧ Atoi n = .ok L ∧ 0 ≤ L ∧ Decode hx = .ok D ∧
        ascii "XXXXXXXXXX" = S.take (min L.toNat S.length) ∧ Sum (ascii "XXXXXXXXXX") = D :=
  ⟨by decide!, Parse_success_sound _ _ (by decide!)⟩

/-- C6. Structural check: a content with fewer than three newline bytes
(the empty content included) gives the empty target and
`ErrNotMFSymlink`. -/
theorem Parse_few_newlines (b : List Byte) (h : b.count newline < 3) :
    Parse b = .ret emptyString (some .ErrNotMFSymlink) := by
  apply Parse_few_pieces
  have := SplitN_length_le b newline
  omega

theorem Parse_few_newlines_witness :
    (ascii "XSym\n10\nXXXXXXXXXX").count newline < 3 ∧
      Parse (ascii "XSym\n10\nXXXXXXXXXX") = .ret emptyString (some .ErrNotMFSymlink) :=
  ⟨by decide, Parse_few_newlines (ascii "XSym\n10\nXXXXXXXXXX") (by decide)⟩

/-- C7. Marker check: a content whose first newline-delimited segment is
not `"XSym"`, or that does not begin with the five bytes `"XSym\n"`, gives
the empty target and `ErrNotMFSymlink`, whatever the other segments are. -/
theorem Parse_marker_check (b : List Byte)
    (h : b.takeWhile (fun x => x != newline) ≠ Marker ∨ ¬ (Marker ++ [newline] <+: b)) :
    Parse b = .ret emptyString (some .ErrNotMFSymlink) := by
  rcases Parse_paths b with h1 | ⟨s1, s2, s3, l, d, rfl, -, -, -, -, -⟩
  · exact h1
  · exfalso
    rcases h with h | h
    · exact h (takeWhile_cut Marker _ newline newline_not_mem_Marker)
    · exact h ⟨s1 ++ newline :: (s2 ++ newline :: s3), by simp⟩

theorem Parse_marker_check_witness :
    ((ascii "xsym\n10\nc59195470191ddf4c0f9e54e33046386\nXXXXXXXXXX").takeWhile
          (fun x => x != newline) ≠ Marker ∨
        ¬ (Marker ++ [newline] <+: ascii "xsym\n10\nc59195470191ddf4c0f9e54e33046386\nXXXXXXXXXX")) ∧
      Parse (ascii "xsym\n10\nc59195470191ddf4c0f9e54e33046386\nXXXXXXXXXX")
        = .ret emptyString (some .ErrNotMFSymlink) :=
  ⟨Or.inl (by decide), Parse_marker_check _ (Or.inl (by decide))⟩

/-- C8 fails on the code. A length field made of a minus sign and a decimal
numeral of a value from `1` to `2^63` parses to a negative `int`; with a
checksum field that decodes, `Parse` then panics in `targetBytes[:l]`
instead of returning `ErrNotMFSymlink`. -/
theorem Parse_negative_numeral_panics (ds hx S D : List Byte) (hds : isNumeral ds)
    (hpos : 0 < digitsValue ds) (hle : digitsValue ds ≤ 2 ^ 63) (hh : Decode hx = .ok D) :
    Parse (header (0x2d :: ds) hx ++ S) = .panic := by
  have ha : Atoi (0x2d :: ds) = .ok (-(digitsValue ds : Int)) := by
    rw [Atoi_minus_numeral ds hds, if_pos hle]
  have hnl : newline ∉ (0x2d : Byte) :: ds := by
    simp only [List.mem_cons, not_or]
    exact ⟨by decide, newline_not_mem_numeral ds hds⟩
  rw [header_append]
  exact Parse_negative_length _ hx S _ D hnl (newline_not_mem_of_Decode hx D hh) ha hh (by omega)

theorem Parse_negative_numeral_panics_witness :
    isNumeral (ascii "1") ∧ 0 < digitsValue (ascii "1") ∧ digitsValue (ascii "1") ≤ 2 ^ 63 ∧
      Decode (ascii "c59195470191ddf4c0f9e54e33046386") = .ok (Sum (ascii "XXXXXXXXXX")) ∧
      Parse (header (0x2d :: ascii "1") (ascii "c59195470191ddf4c0f9e54e33046386") ++
        ascii "XXXXXXXXXX") = .panic :=
  ⟨by decide, by decide, by decide, by decide!,
    Parse_negative_numeral_panics (ascii "1") (ascii "c59195470191ddf4c0f9e54e33046386")
      (ascii "XXXXXXXXXX") (Sum (ascii "XXXXXXXXXX")) (by decide) (by decide) (by decide)
      (by decide!)⟩

/-- C9. Checksum decode: a content with three newlines in front of its
fourth segment whose third segment is not valid hexadecimal data of even
length gives the empty target and `ErrNotMFSymlink`, not `ErrMD5Mismatch`,
whatever the first, second and fourth segments are. -/
theorem Parse_bad_checksum_encoding (s0 s1 s2 s3 : List Byte)
    (h0 : newline ∉ s0) (h1 : newline ∉ s1) (h2 : newline ∉ s2) (hx : ¬ validHex s2) :
    Parse (s0 ++ [newline] ++ s1 ++ [newline] ++ s2 ++ [newline] ++ s3)
        = .ret emptyString (some .ErrNotMFSymlink) ∧
      Parse (s0 ++ [newline] ++ s1 ++ [newline] ++ s2 ++ [newline] ++ s3)
        ≠ .ret emptyString (some .ErrMD5Mismatch) := by
  have e : s0 ++ [newline] ++ s1 ++ [newline] ++ s2 ++ [newline] ++ s3 =
      s0 ++ newline :: (s1 ++ newline :: (s2 ++ newline :: s3)) := by simp
  have key : Parse (s0 ++ newline :: (s1 ++ newline :: (s2 ++ newline :: s3))) =
      .ret emptyString (some .ErrNotMFSymlink) := by
    by_cases hm : s0 = Marker
    · subst hm
      cases ha : Atoi s1 with
      | error e => exact Parse_bad_length s1 s2 s3 e h1 h2 ha
      | ok l =>
        obtain ⟨e, hd⟩ := Decode_error_of_not_validHex s2 hx
        exact Parse_bad_hex s1 s2 s3 l e h1 h2 ha hd
    · exact Parse_bad_marker s0 s1 s2 s3 h0 h1 h2 hm
  rw [e, key]
  exact ⟨rfl, by decide⟩

theorem Parse_bad_checksum_encoding_witness :
    newline ∉ ascii "XSym" ∧ newline ∉ ascii "10" ∧ newline ∉ ascii "x" ∧ ¬ validHex (ascii "x") ∧
      (Parse (ascii "XSym" ++ [newline] ++ ascii "10" ++ [newline] ++ ascii "x" ++ [newline] ++ [])
          = .ret emptyString (some .ErrNotMFSymlink) ∧
        Parse (ascii "XSym" ++ [newline] ++ ascii "10" ++ [newline] ++ ascii "x" ++ [newline] ++ [])
          ≠ .ret emptyString (some .ErrMD5Mismatch)) :=
  ⟨by decide, by decide, by decide, by decide,
    Parse_bad_checksum_encoding (ascii "XSym") (ascii "10") (ascii "x") [] (by decide) (by decide)
      (by decide) (by decide)⟩

/-- C10. Error taxonomy: when `Parse` returns `ErrMD5Mismatch` the envelope
is well formed: the content splits into exactly four segments, the first is
`"XSym"`, the second parses as a base-10 integer that is not negative, and
the third is valid hexadecimal data of even length (and the target returned
is empty). -/
theorem Parse_mismatch_only_wellformed (b t : List Byte)
    (h : Parse b = .ret t (some .ErrMD5Mismatch)) :
    t = emptyString ∧
    ∃ (n hx S : List Byte) (L : Int),
      SplitN b newline 4 = [Marker, n, hx, S] ∧ b = header n hx ++ S ∧
      Atoi n = .ok L ∧ 0 ≤ L ∧ validHex hx := by
  rcases Parse_paths b with h1 | ⟨s1, s2, s3, l, d, rfl, hn1, hn2, ha, hd, hc⟩
  · rw [h1] at h; cases h
  rcases hc with ⟨-, hp⟩ | ⟨hl, -, hp⟩ | ⟨-, -, hp⟩
  · rw [hp] at h; cases h
  · rw [hp] at h
    injection h with ht
    exact ⟨ht.symm, s1, s2, s3, l, SplitN_form Marker s1 s2 s3 newline newline_not_mem_Marker hn1 hn2,
      (header_append s1 s2 s3).symm, ha, hl, (Decode_ok_iff s2).mp ⟨d, hd⟩⟩
  · rw [hp] at h; cases h

theorem Parse_mismatch_only_wellformed_witness :
    Parse (ascii "XSym\n10\n\n") = .ret emptyString (some .ErrMD5Mismatch) ∧
      emptyString = emptyString ∧
      ∃ (n hx S : List Byte) (L : Int),
        SplitN (ascii "XSym\n10\n\n") newline 4 = [Marker, n, hx, S] ∧
        ascii "XSym\n10\n\n" = header n hx ++ S ∧ Atoi n = .ok L ∧ 0 ≤ L ∧ validHex hx :=
  ⟨by decide!, Parse_mismatch_only_wellformed (ascii "XSym\n10\n\n") emptyString (by decide!)⟩

/-- C11. Size pre-check: `IsPossibleSymlink` is true if and only if the
size `i.Size()` of the file info equals 1067, the constant `Size`; it is
false for every other size, in particular 0, 1066 and 1068. -/
theorem IsPossibleSymlink_iff (size : Int) :
    (IsPossibleSymlink size = true ↔ size = 1067) ∧
      (size ≠ 1067 → IsPossibleSymlink size = false) ∧ Size = 1067 ∧
      IsPossibleSymlink 0 = false ∧ IsPossibleSymlink 1066 = false ∧
      IsPossibleSymlink 1067 = true ∧ IsPossibleSymlink 1068 = false := by
  refine ⟨?_, ?_, rfl, by decide, by decide, by decide, by decide⟩
  · simp [IsPossibleSymlink, Size]
  · intro h
    simp [IsPossibleSymlink, Size, h]

/-- C12. Permissive short target: for every target `T` and every declared
length `L` with `len(T) <= L < 2^63`, `Parse` applied to the envelope with
the decimal numeral of `L`, the hexadecimal MD5 of `T` and `T` returns `T`
and no error: the short fourth segment is used as it is. -/
theorem Parse_short_target (T : List Byte) (L : Nat) (hle : T.length ≤ L) (hL : L < 2 ^ 63) :
    Parse (header (decimal L) (hexEncode (Sum T)) ++ T) = .ret T none := by
  rw [header_append, Parse_checked (decimal L) (hexEncode (Sum T)) T (L : Int) (Sum T)
    (newline_not_mem_numeral _ (decimal_numeral _).1) (newline_not_mem_hexEncode _)
    (Atoi_decimal _ hL) (Decode_hexEncode _) (by omega)]
  simp only [Int.toNat_ofNat, List.take_of_length_le hle]
  simp

theorem Parse_short_target_witness :
    (ascii "XXXXXXXXXX").length ≤ 1000 ∧ 1000 < 2 ^ 63 ∧
      Parse (header (decimal 1000) (hexEncode (Sum (ascii "XXXXXXXXXX"))) ++ ascii "XXXXXXXXXX")
        = .ret (ascii "XXXXXXXXXX") none :=
  ⟨by decide, by decide, Parse_short_target (ascii "XXXXXXXXXX") 1000 (by decide) (by decide)⟩

/-- C13. `Parse` does not enforce the fixed total size: with the same
header and payload, a content of exactly `Size = 1067` bytes and a content
of any other length give the same result; and the 51-byte content
`"XSym\n10\nc59195470191ddf4c0f9e54e33046386\nXXXXXXXXXX"`, which the size
pre-check rejects, parses to its target with no error. -/
theorem Parse_not_size_gated (n h P X Y : List Byte) (hn : isNumeral n) (hh : newline ∉ h)
    (hP : P.length = digitsValue n)
    (_hX : ((header n h ++ P ++ X).length : Int) = Size)
    (_hY : ((header n h ++ P ++ Y).length : Int) ≠ Size) :
    Parse (header n h ++ P ++ X) = Parse (header n h ++ P ++ Y) ∧
      (ascii "XSym\n10\nc59195470191ddf4c0f9e54e33046386\nXXXXXXXXXX").length = 51 ∧
      IsPossibleSymlink 51 = false ∧
      Parse (ascii "XSym\n10\nc59195470191ddf4c0f9e54e33046386\nXXXXXXXXXX")
        = .ret (ascii "XXXXXXXXXX") none :=
  ⟨Parse_padding_congr n h P X Y hn hh hP, by decide, by decide, by decide!⟩

theorem Parse_not_size_gated_witness :
    isNumeral (ascii "0026") ∧ newline ∉ ascii "500e5dbfa9b8c0041e01fe4f7967e287" ∧
      (ascii "../XXXX-XX-XX/XXXXXXXXXXXX").length = digitsValue (ascii "0026") ∧
      ((header (ascii "0026") (ascii "500e5dbfa9b8c0041e01fe4f7967e287") ++
          ascii "../XXXX-XX-XX/XXXXXXXXXXXX" ++ (newline :: List.replicate 997 0x20)).length : Int)
        = Size ∧
      ((header (ascii "0026") (ascii "500e5dbfa9b8c0041e01fe4f7967e287") ++
          ascii "../XXXX-XX-XX/XXXXXXXXXXXX" ++ []).length : Int) ≠ Size ∧
      (Parse (header (ascii "0026") (ascii "500e5dbfa9b8c0041e01fe4f7967e287") ++
            ascii "../XXXX-XX-XX/XXXXXXXXXXXX" ++ (newline :: List.replicate 997 0x20)) =
          Parse (header (ascii "0026") (ascii "500e5dbfa9b8c0041e01fe4f7967e287") ++
            ascii "../XXXX-XX-XX/XXXXXXXXXXXX" ++ []) ∧
        (ascii "XSym\n10\nc59195470191ddf4c0f9e54e33046386\nXXXXXXXXXX").length = 51 ∧
        IsPossibleSymlink 51 = false ∧
        Parse (ascii "XSym\n10\nc59195470191ddf4c0f9e54e33046386\nXXXXXXXXXX")
          = .ret (ascii "XXXXXXXXXX") none) :=
  ⟨by decide, by decide, by decide, by decide!, by decide!,
    Parse_not_size_gated (ascii "0026") (ascii "500e5dbfa9b8c0041e01fe4f7967e287")
      (ascii "../XXXX-XX-XX/XXXXXXXXXXXX") (newline :: List.replicate 997 0x20) []
      (by decide) (by decide) (by decide) (by decide!) (by decide!)⟩

/-- C14 fails as stated. The length field `99999999999999999999` denotes a
non-negative integer and the checksum field `00` is valid hexadecimal data
of a length other than 32, but `Parse` does not return `ErrMD5Mismatch`
(`Atoi` reports a range error and `Parse` returns `ErrNotMFSymlink`). -/
theorem Parse_wrong_size_checksum_out_of_range :
    ¬ ∀ n h S : List Byte, isNumeral n → validHex h → h.length ≠ 32 →
        Parse (header n h ++ S) = .ret emptyString (some .ErrMD5Mismatch) := by
  intro hall
  have h1 := hall (ascii "99999999999999999999") (ascii "00") (ascii "x") (by decide) (by decide)
    (by decide)
  revert h1
  decide!

/-- C14, amended. A checksum field of the wrong size never verifies: with
the marker, a length field that is a decimal numeral of an integer below
`2^63` and a checksum field that is valid hexadecimal data of even length
other than 32 characters (the empty field included), `Parse` returns the
empty target with `ErrMD5Mismatch`, for every fourth segment; and whenever
`Parse` succeeds, the third segment is exactly 32 hexadecimal characters. -/
theorem Parse_wrong_size_checksum (n h S : List Byte) (hn : isNumeral n)
    (hL : digitsValue n < 2 ^ 63) (hh : validHex h) (hlen : h.length ≠ 32) :
    Parse (header n h ++ S) = .ret emptyString (some .ErrMD5Mismatch) ∧
      ∀ b t : List Byte, Parse b = .ret t none →
        ∃ n2 h2 S2 : List Byte, b = header n2 h2 ++ S2 ∧ newline ∉ n2 ∧ newline ∉ h2 ∧
          validHex h2 ∧ h2.length = 32 := by
  constructor
  · obtain ⟨d, hd⟩ := (Decode_ok_iff h).mpr hh
    have ha : Atoi n = .ok (digitsValue n : Int) := by rw [Atoi_numeral n hn, if_pos hL]
    rw [header_append, Parse_checked n h S _ d (newline_not_mem_numeral n hn)
      (newline_not_mem_validHex h hh) ha hd (by omega)]
    rw [if_pos (Decode_ne_Sum h d _ hd hlen)]
  · intro b t hb
    rcases Parse_paths b with h1 | ⟨s1, s2, s3, l, d, rfl, hn1, hn2, -, hd, hc⟩
    · rw [h1] at hb; cases hb
    rcases hc with ⟨-, hp⟩ | ⟨-, -, hp⟩ | ⟨-, hsum, -⟩
    · rw [hp] at hb; cases hb
    · rw [hp] at hb; cases hb
    refine ⟨s1, s2, s3, (header_append s1 s2 s3).symm, hn1, hn2, (Decode_ok_iff s2).mp ⟨d, hd⟩, ?_⟩
    by_contra hne
    exact Decode_ne_Sum s2 d _ hd hne hsum

theorem Parse_wrong_size_checksum_witness :
    isNumeral (ascii "10") ∧ digitsValue (ascii "10") < 2 ^ 63 ∧ validHex [] ∧
      ([] : List Byte).length ≠ 32 ∧
      (Parse (header (ascii "10") [] ++ []) = .ret emptyString (some .ErrMD5Mismatch) ∧
        ∀ b t : List Byte, Parse b = .ret t none →
          ∃ n2 h2 S2 : List Byte, b = header n2 h2 ++ S2 ∧ newline ∉ n2 ∧ newline ∉ h2 ∧
            validHex h2 ∧ h2.length = 32) :=
  ⟨by decide, by decide, by decide, by decide,
    Parse_wrong_size_checksum (ascii "10") [] [] (by decide) (by decide) (by decide) (by decide)⟩

/-- C15. Zero-padded length field: for every decimal numeral `n`, every
third segment `h` and every fourth segment `S`, any number of `0`
characters in front of the length field leaves the result of `Parse`
unchanged; the test's valid file, whose length field is `0026` (the
numeral `26` behind two zeros), parses to its 26-byte target. -/
theorem Parse_zero_padded_length (k : Nat) (n h S : List Byte) (hn : isNumeral n) :
    Parse (header (List.replicate k 0x30 ++ n) h ++ S) = Parse (header n h ++ S) ∧
      validMFSymlink =
        header (List.replicate 2 0x30 ++ ascii "26") (ascii "500e5dbfa9b8c0041e01fe4f7967e287") ++
          (ascii "../XXXX-XX-XX/XXXXXXXXXXXX" ++ newline :: (List.replicate 249 0x09 ++ [0x20])) ∧
      (ascii "../XXXX-XX-XX/XXXXXXXXXXXX").length = 26 ∧
      Parse validMFSymlink = .ret (ascii "../XXXX-XX-XX/XXXXXXXXXXXX") none := by
  refine ⟨?_, by decide!, by decide, by decide!⟩
  rw [header_append, header_append]
  exact Parse_length_field_congr _ _ _
    (newline_not_mem_numeral _ (isNumeral_zeros_append k n hn).1) (newline_not_mem_numeral n hn)
    (Atoi_zeros_numeral k n hn)

theorem Parse_zero_padded_length_witness :
    isNumeral (ascii "26") ∧
      (Parse (header (List.replicate 2 0x30 ++ ascii "26") (ascii "500e5dbfa9b8c0041e01fe4f7967e287")
            ++ ascii "../XXXX-XX-XX/XXXXXXXXXXXX") =
          Parse (header (ascii "26") (ascii "500e5dbfa9b8c0041e01fe4f7967e287") ++
            ascii "../XXXX-XX-XX/XXXXXXXXXXXX") ∧
        validMFSymlink =
          header (List.replicate 2 0x30 ++ ascii "26") (ascii "500e5dbfa9b8c0041e01fe4f7967e287") ++
            (ascii "../XXXX-XX-XX/XXXXXXXXXXXX" ++ newline :: (List.replicate 249 0x09 ++ [0x20])) ∧
        (ascii "../XXXX-XX-XX/XXXXXXXXXXXX").length = 26 ∧
        Parse validMFSymlink = .ret (ascii "../XXXX-XX-XX/XXXXXXXXXXXX") none) :=
  ⟨by decide, Parse_zero_padded_length 2 (ascii "26") (ascii "500e5dbfa9b8c0041e01fe4f7967e287")
    (ascii "../XXXX-XX-XX/XXXXXXXXXXXX") (by decide)⟩

/-- C16. The checksum field is case-insensitive: in a content with three
newlines in front of its fourth segment, replacing any of the letters `a`-`f`
of the third segment by the upper-case letters `A`-`F`, or the reverse,
leaves the result of `Parse` unchanged; and the round trip holds for an
envelope built with upper-case hexadecimal digits. -/
theorem Parse_checksum_case_insensitive (s0 s1 s2 t2 s3 : List Byte) (h0 : newline ∉ s0)
    (h1 : newline ∉ s1) (h2 : newline ∉ s2) (hv : List.Forall₂ hexCaseVariant s2 t2) :
    Parse (s0 ++ [newline] ++ s1 ++ [newline] ++ t2 ++ [newline] ++ s3) =
        Parse (s0 ++ [newline] ++ s1 ++ [newline] ++ s2 ++ [newline] ++ s3) ∧
      ∀ T : List Byte, T.length < 2 ^ 63 →
        Parse (header (decimal T.length) (hexEncodeUpper (Sum T)) ++ T) = .ret T none := by
  constructor
  · have e : ∀ x : List Byte, s0 ++ [newline] ++ s1 ++ [newline] ++ x ++ [newline] ++ s3 =
        s0 ++ newline :: (s1 ++ newline :: (x ++ newline :: s3)) := by
      intro x; simp
    rw [e t2, e s2]
    exact Parse_checksum_field_congr s0 s1 s2 t2 s3 h0 h1 h2
      (newline_not_mem_caseVariant s2 t2 hv h2) (Decode_caseVariant s2 t2 hv)
  · intro T hT
    have hvar := caseVariant_map_upper (hexEncode (Sum T))
    have hd : Decode (hexEncodeUpper (Sum T)) = .ok (Sum T) := by
      rw [hexEncodeUpper, Decode_caseVariant _ _ hvar, Decode_hexEncode]
    rw [header_append, Parse_checked (decimal T.length) (hexEncodeUpper (Sum T)) T (T.length : Int)
      (Sum T) (newline_not_mem_numeral _ (decimal_numeral _).1)
      (newline_not_mem_caseVariant _ _ hvar (newline_not_mem_hexEncode _))
      (Atoi_decimal _ hT) hd (by omega)]
    simp

theorem Parse_checksum_case_insensitive_witness :
    newline ∉ ascii "XSym" ∧ newline ∉ ascii "10" ∧
      newline ∉ ascii "c59195470191ddf4c0f9e54e33046386" ∧
      List.Forall₂ hexCaseVariant (ascii "c59195470191ddf4c0f9e54e33046386")
        (ascii "C59195470191DDf4c0F9E54e33046386") ∧
      (Parse (ascii "XSym" ++ [newline] ++ ascii "10" ++ [newline] ++
            ascii "C59195470191DDf4c0F9E54e33046386" ++ [newline] ++ ascii "XXXXXXXXXX") =
          Parse (ascii "XSym" ++ [newline] ++ ascii "10" ++ [newline] ++
            ascii "c59195470191ddf4c0f9e54e33046386" ++ [newline] ++ ascii "XXXXXXXXXX") ∧
        ∀ T : List Byte, T.length < 2 ^ 63 →
          Parse (header (decimal T.length) (hexEncodeUpper (Sum T)) ++ T) = .ret T none) :=
  ⟨by decide, by decide, by decide, by decide,
    Parse_checksum_case_insensitive (ascii "XSym") (ascii "10")
      (ascii "c59195470191ddf4c0f9e54e33046386") (ascii "C59195470191DDf4c0F9E54e33046386")
      (ascii "XXXXXXXXXX") (by decide) (by decide) (by decide) (by decide)⟩

/-- C17. A leading plus sign in the length field is accepted: for every
non-empty string of digits `n` (in machine-int range or not), every third
segment `h` and every fourth segment `S`, `Parse` gives the same result with
the length field `+n` as with `n`; so a length field need not be made of
digits only, as on `"XSym\n+10\nc59195470191ddf4c0f9e54e33046386\nXXXXXXXXXX"`,
which parses to its target. -/
theorem Parse_plus_sign_length (n h S : List Byte) (hn : isNumeral n) :
    Parse (header (0x2b :: n) h ++ S) = Parse (header n h ++ S) ∧
      Parse (ascii "XSym\n+10\nc59195470191ddf4c0f9e54e33046386\nXXXXXXXXXX")
        = .ret (ascii "XXXXXXXXXX") none := by
  refine ⟨?_, by decide!⟩
  have hnl : newline ∉ (0x2b : Byte) :: n := by
    simp only [List.mem_cons, not_or]
    exact ⟨by decide, newline_not_mem_numeral n hn⟩
  rw [header_append, header_append]
  exact Parse_length_field_congr _ _ _ hnl (newline_not_mem_numeral n hn) (Atoi_plus_numeral n hn)

theorem Parse_plus_sign_length_witness :
    isNumeral (ascii "10") ∧
      (Parse (header (0x2b :: ascii "10") (ascii "c59195470191ddf4c0f9e54e33046386") ++
            ascii "XXXXXXXXXX") =
          Parse (header (ascii "10") (ascii "c59195470191ddf4c0f9e54e33046386") ++
            ascii "XXXXXXXXXX") ∧
        Parse (ascii "XSym\n+10\nc59195470191ddf4c0f9e54e33046386\nXXXXXXXXXX")
          = .ret (ascii "XXXXXXXXXX") none) :=
  ⟨by decide, Parse_plus_sign_length (ascii "10") (ascii "c59195470191ddf4c0f9e54e33046386")
    (ascii "XXXXXXXXXX") (by decide)⟩

end Mfsymlink
